import Mathlib

/-!
Verification of the Dynamic-Token-Presale core contracts.

Shallow embedding of two Solidity contracts:
* `DynamicPresale` (packages/contracts/contracts/DynamicPresale.sol) — a
  multi-phase presale with buy / claim / refund / escrow / proceeds logic,
  modelled as a state machine `PState` with operations `POp` executed by
  `execOp`; a reverting call returns `none` and (per EVM semantics) leaves
  the state unchanged.
* `TokenVesting` (linear vesting with cliff) — modelled as a state machine
  `VState` with operations `VOp`.

Addresses are an abstract finite type `A` with decidable equality.  The EVM
zero-address guard (`dest != address(0)`) and `onlyOwner` authorization
checks are not modelled: dropping a guard only enlarges the set of reachable
states, so all invariants proved here also hold for the guarded original.
Machine integers are modelled as `Nat`; the contracts target Solidity 0.8
whose checked arithmetic reverts on overflow/underflow, and every subtraction
in the code is either explicitly guarded or proved in-range here.
-/

/-- One presale phase, mirroring `struct Phase` of DynamicPresale.sol. -/
structure Phase where
  priceWei : Nat
  supply : Nat
  sold : Nat
  start : Nat
  end_ : Nat
deriving DecidableEq

instance : Inhabited Phase := ⟨⟨0, 0, 0, 0, 0⟩⟩

/-- Activity test used by `_currentPhaseIndex` (DynamicPresale.sol line 167):
`timeOk = (p.start == 0 || now >= p.start) && (p.end == 0 || now <= p.end)`
together with `hasSupply = p.sold < p.supply`. -/
def phaseActiveB (p : Phase) (now : Nat) : Bool :=
  ((p.start == 0) || (decide (p.start ≤ now))) &&
  ((p.end_ == 0) || (decide (now ≤ p.end_))) &&
  decide (p.sold < p.supply)

/-- Time-only activity test used by `getCurrentPhase` (line 273):
`block.timestamp >= phases[i].start && block.timestamp <= phases[i].end`. -/
def timeActiveB (p : Phase) (now : Nat) : Bool :=
  decide (p.start ≤ now) && decide (now ≤ p.end_)

/-- Embeds `_currentPhaseIndex` (lines 164-172): first index whose phase is active,
or `none`. -/
def currentPhaseIndex : List Phase → Nat → Option Nat
  | [], _ => none
  | p :: ps, now =>
    if phaseActiveB p now then some 0
    else (currentPhaseIndex ps now).map (· + 1)

/-- Embeds `getCurrentPhase` (lines 271-278): first index whose phase is active by
time only (the supply check is absent there), or `none` (the Solidity code
reverts with no active phase). -/
def getCurrentPhase : List Phase → Nat → Option Nat
  | [], _ => none
  | p :: ps, now =>
    if timeActiveB p now then some 0
    else (getCurrentPhase ps now).map (· + 1)

/-- One vesting schedule, mirroring `struct VestingSchedule` of
TokenVesting.sol. -/
structure VSchedule where
  totalAmount : Nat
  released : Nat
  start : Nat
  duration : Nat
  cliff : Nat
  revocable : Bool
  revoked : Bool
deriving DecidableEq

instance : Inhabited VSchedule := ⟨⟨0, 0, 0, 1, 0, false, false⟩⟩

/-- Embeds `_vestedAmount` (TokenVesting.sol lines 202-215): zero before the cliff,
everything at or after maturity, otherwise the remainder-preserving linear
interpolation `part1 * elapsed + part2 * elapsed / duration` with
`part1 = totalAmount / duration` and `part2 = totalAmount % duration`. -/
def vestedAmount (sch : VSchedule) (now : Nat) : Nat :=
  if now < sch.start + sch.cliff then 0
  else if sch.start + sch.duration ≤ now then sch.totalAmount
  else
    let elapsed := now - sch.start
    sch.totalAmount / sch.duration * elapsed +
      sch.totalAmount % sch.duration * elapsed / sch.duration

/-- Full observable state of the `DynamicPresale` contract over an abstract
finite address type `A`.  `bank` is `address(this).balance`; `claimedTokens`
(total ever minted through `claim`) and `forfeitedTokens` (pending token
units zeroed by `requestRefund`) are history counters used only to state
conservation properties — no Solidity storage variable corresponds to them
and no operation reads them. -/
structure PState (A : Type) where
  tokenDecimals : Nat
  softCap : Nat
  minBuy : Nat
  maxPerWallet : Nat
  phases : List Phase
  totalRaised : Nat
  totalTokensSold : Nat
  saleEnded : Bool
  softCapReached : Bool
  paused : Bool
  contributionsWei : A → Nat
  pendingTokens : A → Nat
  escrowPayments : A → Nat
  buyers : Finset A
  totalEscrow : Nat
  bank : Nat
  claimedTokens : Nat
  forfeitedTokens : Nat

/-- Embeds `tokenUnit = 10 ** tokenDecimals` from the constructor (line 81). -/
def tokenUnit {A : Type} (s : PState A) : Nat := 10 ^ s.tokenDecimals

/-- Post-constructor state (lines 67-85); `bank` starts at zero and the
constructor argument checks are imposed on reachability below. -/
def mkInit (A : Type) (d sc mb mw : Nat) : PState A where
  tokenDecimals := d
  softCap := sc
  minBuy := mb
  maxPerWallet := mw
  phases := []
  totalRaised := 0
  totalTokensSold := 0
  saleEnded := false
  softCapReached := false
  paused := false
  contributionsWei := fun _ => 0
  pendingTokens := fun _ => 0
  escrowPayments := fun _ => 0
  buyers := ∅
  totalEscrow := 0
  bank := 0
  claimedTokens := 0
  forfeitedTokens := 0

variable {A : Type} [DecidableEq A]

/-- Successful-path result of `buy()` (lines 174-210) once the active phase
index `i` is known: the two-pass computation and the atomic effects,
including the conditional escrow queueing of the excess and the soft-cap
latch. -/
def buyResult (s : PState A) (sender : A) (i : Nat) (v : Nat) : PState A :=
  let ph := s.phases.getD i default
  let tokensToBuy := v * tokenUnit s / ph.priceWei
  let available := ph.supply - ph.sold
  let tokensAllocated := if available < tokensToBuy then available else tokensToBuy
  let cost := tokensAllocated * ph.priceWei / tokenUnit s
  let excess := v - cost
  let s1 : PState A :=
    { s with
      phases := s.phases.set i { ph with sold := ph.sold + tokensAllocated }
      totalRaised := s.totalRaised + cost
      totalTokensSold := s.totalTokensSold + tokensAllocated
      contributionsWei :=
        Function.update s.contributionsWei sender (s.contributionsWei sender + cost)
      pendingTokens :=
        Function.update s.pendingTokens sender (s.pendingTokens sender + tokensAllocated)
      buyers := insert sender s.buyers
      bank := s.bank + v }
  let s2 : PState A :=
    if 0 < excess then
      { s1 with
        escrowPayments :=
          Function.update s1.escrowPayments sender (s1.escrowPayments sender + excess)
        totalEscrow := s1.totalEscrow + excess }
    else s1
  if !s2.softCapReached && s2.softCap ≤ s2.totalRaised then
    { s2 with softCapReached := true }
  else s2

/-- Embeds `buy()` (lines 174-210).  `v` is `msg.value`; a `none` result models a
revert (which also returns the attached value, so `bank` is unchanged). -/
def execBuy (s : PState A) (sender : A) (now v : Nat) : Option (PState A) :=
  if s.paused then none
  else if s.saleEnded then none
  else if v < s.minBuy then none
  else
    match currentPhaseIndex s.phases now with
    | none => none
    | some i =>
      let ph := s.phases.getD i default
      let tokensToBuy := v * tokenUnit s / ph.priceWei
      if tokensToBuy = 0 then none
      else
        let available := ph.supply - ph.sold
        let tokensAllocated := if available < tokensToBuy then available else tokensToBuy
        let cost := tokensAllocated * ph.priceWei / tokenUnit s
        if s.maxPerWallet < s.contributionsWei sender + cost then none
        else some (buyResult s sender i v)

/-- Embeds `withdrawPayments()` (lines 99-112): zero the caller entry, decrement the
global total (floored at zero), then send the value; `Address.sendValue`
reverts when the contract balance is insufficient. -/
def execWithdrawPayments (s : PState A) (sender : A) : Option (PState A) :=
  let payment := s.escrowPayments sender
  if payment = 0 then none
  else if s.bank < payment then none
  else
    some { s with
      escrowPayments := Function.update s.escrowPayments sender 0
      totalEscrow := if payment ≤ s.totalEscrow then s.totalEscrow - payment else 0
      bank := s.bank - payment }

/-- Embeds `claim()` (lines 212-222); `token.mint` is the external token issuer and
does not touch presale storage; the ghost counter records the minted total. -/
def execClaim (s : PState A) (sender : A) : Option (PState A) :=
  if s.paused then none
  else if !s.saleEnded then none
  else if !s.softCapReached then none
  else
    let amount := s.pendingTokens sender
    if amount = 0 then none
    else
      some { s with
        pendingTokens := Function.update s.pendingTokens sender 0
        claimedTokens := s.claimedTokens + amount }

/-- Embeds `requestRefund()` (lines 224-236): zero both ledger fields and queue the
contribution into escrow; the ghost counter records the pending tokens that
are forfeited. -/
def execRequestRefund (s : PState A) (sender : A) : Option (PState A) :=
  if s.paused then none
  else if !s.saleEnded then none
  else if s.softCapReached then none
  else
    let contributed := s.contributionsWei sender
    if contributed = 0 then none
    else
      some { s with
        contributionsWei := Function.update s.contributionsWei sender 0
        pendingTokens := Function.update s.pendingTokens sender 0
        escrowPayments :=
          Function.update s.escrowPayments sender (s.escrowPayments sender + contributed)
        totalEscrow := s.totalEscrow + contributed
        forfeitedTokens := s.forfeitedTokens + s.pendingTokens sender }

/-- Embeds `withdrawProceeds(beneficiary)` (lines 242-251): everything above the
escrow reserve is sent out. -/
def execWithdrawProceeds (s : PState A) : Option (PState A) :=
  if !s.saleEnded then none
  else if !s.softCapReached then none
  else if s.bank ≤ s.totalEscrow then none
  else some { s with bank := s.bank - (s.bank - s.totalEscrow) }

/-- Embeds `endSale()` (lines 253-257). -/
def execEndSale (s : PState A) : Option (PState A) :=
  if s.saleEnded then none else some { s with saleEnded := true }

/-- Embeds `addPhase` (lines 126-138). -/
def execAddPhase (s : PState A) (now priceWei supply start end_ : Nat) :
    Option (PState A) :=
  if priceWei = 0 then none
  else if supply = 0 then none
  else if end_ ≤ start then none
  else if start ≤ now then none
  else if !(s.phases.all fun p => decide (p.end_ ≤ start) || decide (end_ ≤ p.start)) then
    none
  else
    some { s with
      phases := s.phases ++ [⟨priceWei, supply, 0, start, end_⟩] }

/-- Embeds `updatePhase` (lines 140-153); the overlap loop skips the phase itself. -/
def execUpdatePhase (s : PState A) (now phaseId newStart newEnd : Nat) :
    Option (PState A) :=
  if s.phases.length ≤ phaseId then none
  else if newEnd ≤ newStart then none
  else
    let ph := s.phases.getD phaseId default
    if ph.start ≤ now then none
    else if !((List.range s.phases.length).all fun j =>
        (j == phaseId) ||
          (decide ((s.phases.getD j default).end_ ≤ newStart) ||
           decide (newEnd ≤ (s.phases.getD j default).start))) then none
    else
      some { s with
        phases := s.phases.set phaseId { ph with start := newStart, end_ := newEnd } }

/-- Embeds `pausePhase` (lines 155-158): overwrites the phase end with the current
timestamp, unconditionally. -/
def execPausePhase (s : PState A) (now phaseId : Nat) : Option (PState A) :=
  if s.phases.length ≤ phaseId then none
  else
    let ph := s.phases.getD phaseId default
    some { s with phases := s.phases.set phaseId { ph with end_ := now } }

/-- Embeds `pause()` / `unpause()` (lines 259-265); OpenZeppelin `_pause` reverts
when already paused and `_unpause` when not paused. -/
def execPause (s : PState A) : Option (PState A) :=
  if s.paused then none else some { s with paused := true }

/-- Unpause counterpart of `execPause`. -/
def execUnpause (s : PState A) : Option (PState A) :=
  if s.paused then some { s with paused := false } else none

/-- Embeds `setSoftCap` (lines 322-326). -/
def execSetSoftCap (s : PState A) (v : Nat) : Option (PState A) :=
  if v = 0 then none
  else if s.softCapReached then none
  else some { s with softCap := v }

/-- Embeds `setMinBuy` (lines 328-332). -/
def execSetMinBuy (s : PState A) (v : Nat) : Option (PState A) :=
  if v = 0 then none
  else if s.maxPerWallet < v then none
  else some { s with minBuy := v }

/-- Embeds `setMaxPerWallet` (lines 334-337): the only check is against `minBuy` —
existing contributions are not consulted. -/
def execSetMaxPerWallet (s : PState A) (v : Nat) : Option (PState A) :=
  if v < s.minBuy then none
  else some { s with maxPerWallet := v }

/-- Embeds `receive() external payable {}` (line 339): a plain incoming transfer. -/
def execReceive (s : PState A) (v : Nat) : Option (PState A) :=
  some { s with bank := s.bank + v }

/-- Embeds `calculateTokens(ethAmount)` (lines 294-306): the preview computation,
returning (tokens, cost, excess). -/
def calculateTokens (s : PState A) (now ethAmount : Nat) : Nat × Nat × Nat :=
  match currentPhaseIndex s.phases now with
  | none => (0, 0, ethAmount)
  | some i =>
    let ph := s.phases.getD i default
    let tokensToBuy := ethAmount * tokenUnit s / ph.priceWei
    let available := ph.supply - ph.sold
    let tokensAllocated := if available < tokensToBuy then available else tokensToBuy
    let cost := tokensAllocated * ph.priceWei / tokenUnit s
    (tokensAllocated, cost, ethAmount - cost)

/-- External entry points of `DynamicPresale`; each mutating transaction in a
history is one of these. -/
inductive POp (A : Type) where
  | buy (sender : A) (now v : Nat)
  | withdrawPayments (sender : A)
  | claim (sender : A)
  | requestRefund (sender : A)
  | withdrawProceeds
  | endSale
  | addPhase (now priceWei supply start end_ : Nat)
  | updatePhase (now phaseId newStart newEnd : Nat)
  | pausePhase (now phaseId : Nat)
  | pause
  | unpause
  | setSoftCap (v : Nat)
  | setMinBuy (v : Nat)
  | setMaxPerWallet (v : Nat)
  | receive (v : Nat)

/-- Dispatch one transaction. -/
def execOp (s : PState A) : POp A → Option (PState A)
  | .buy sender now v => execBuy s sender now v
  | .withdrawPayments sender => execWithdrawPayments s sender
  | .claim sender => execClaim s sender
  | .requestRefund sender => execRequestRefund s sender
  | .withdrawProceeds => execWithdrawProceeds s
  | .endSale => execEndSale s
  | .addPhase now p sup st en => execAddPhase s now p sup st en
  | .updatePhase now i ns ne => execUpdatePhase s now i ns ne
  | .pausePhase now i => execPausePhase s now i
  | .pause => execPause s
  | .unpause => execUnpause s
  | .setSoftCap v => execSetSoftCap s v
  | .setMinBuy v => execSetMinBuy s v
  | .setMaxPerWallet v => execSetMaxPerWallet s v
  | .receive v => execReceive s v

/-- Transaction semantics: a reverted call is a complete no-op. -/
def applyOp (s : PState A) (op : POp A) : PState A := (execOp s op).getD s

/-- Run a history of transactions. -/
def runOps (s : PState A) (ops : List (POp A)) : PState A := ops.foldl applyOp s

/-- Reachability: some constructor arguments satisfying the constructor
checks (lines 74-77) followed by an arbitrary transaction history. -/
def Reachable (s : PState A) : Prop :=
  ∃ d sc mb mw : Nat, ∃ ops : List (POp A),
    0 < sc ∧ 0 < mb ∧ mb ≤ mw ∧ s = runOps (mkInit A d sc mb mw) ops

/-- Full observable state of the `TokenVesting` contract.  `balance` is
`token.balanceOf(address(this))`; `now` is the timestamp of the last executed
transaction, used to enforce that block timestamps never decrease. -/
structure VState (A : Type) where
  now : Nat
  schedules : A → List VSchedule
  totalVestedAmount : A → Nat
  totalVestingSchedules : Nat
  totalCommitted : Nat
  balance : Nat
  paused : Bool

/-- Post-constructor vesting state. -/
def vInit (A : Type) : VState A where
  now := 0
  schedules := fun _ => []
  totalVestedAmount := fun _ => 0
  totalVestingSchedules := 0
  totalCommitted := 0
  balance := 0
  paused := false

/-- Embeds `createVesting` (TokenVesting.sol lines 71-116). -/
def execCreateVesting (s : VState A) (t : Nat) (b : A)
    (totalAmount start duration cliff : Nat) (revocable : Bool) :
    Option (VState A) :=
  if t < s.now then none
  else if s.paused then none
  else if totalAmount = 0 then none
  else if duration = 0 then none
  else if duration < cliff then none
  else if start < t then none
  else if s.balance < s.totalCommitted + totalAmount then none
  else
    some { s with
      now := t
      schedules := Function.update s.schedules b
        (s.schedules b ++ [⟨totalAmount, 0, start, duration, cliff, revocable, false⟩])
      totalVestedAmount :=
        Function.update s.totalVestedAmount b (s.totalVestedAmount b + totalAmount)
      totalCommitted := s.totalCommitted + totalAmount
      totalVestingSchedules := s.totalVestingSchedules + 1 }

/-- Embeds `releaseSchedule` (lines 163-195); the floored decrements of
`totalCommitted` and `totalVestedAmount` mirror lines 181-191, and
`safeTransfer` reverts when the token balance is insufficient. -/
def execReleaseSchedule (s : VState A) (t : Nat) (b : A) (scheduleId : Nat) :
    Option (VState A) :=
  if t < s.now then none
  else if s.paused then none
  else if (s.schedules b).length ≤ scheduleId then none
  else
    let sch := (s.schedules b).getD scheduleId default
    if sch.revoked then none
    else
      let vested := vestedAmount sch t
      if vested ≤ sch.released then none
      else
        let unreleased := vested - sch.released
        if s.balance < unreleased then none
        else
          some { s with
            now := t
            schedules := Function.update s.schedules b
              ((s.schedules b).set scheduleId
                { sch with released := sch.released + unreleased })
            totalCommitted :=
              if unreleased ≤ s.totalCommitted then s.totalCommitted - unreleased else 0
            totalVestedAmount := Function.update s.totalVestedAmount b
              (if unreleased ≤ s.totalVestedAmount b
               then s.totalVestedAmount b - unreleased else 0)
            balance := s.balance - unreleased }

/-- One iteration of the `release()` loop (lines 127-155) over one schedule:
returns the updated schedule and the amount newly released from it. -/
def releaseStep (t : Nat) (sch : VSchedule) : VSchedule × Nat :=
  if sch.revoked then (sch, 0)
  else
    let vested := vestedAmount sch t
    if vested ≤ sch.released then (sch, 0)
    else (⟨sch.totalAmount, sch.released + (vested - sch.released), sch.start,
           sch.duration, sch.cliff, sch.revocable, sch.revoked⟩,
          vested - sch.released)

/-- The `release()` loop folded over the caller's schedule list, threading the
floored running decrements of `totalCommitted` and `totalVestedAmount`
exactly as the loop body does; the last component is `totalReleasable`. -/
def releaseLoop (t : Nat) : List VSchedule → Nat → Nat →
    List VSchedule × Nat × Nat × Nat
  | [], c, tv => ([], c, tv, 0)
  | sch :: rest, c, tv =>
    let (sch', r) := releaseStep t sch
    let c1 := if r ≤ c then c - r else 0
    let tv1 := if r ≤ tv then tv - r else 0
    let (rest', c', tv', rs) := releaseLoop t rest c1 tv1
    (sch' :: rest', c', tv', r + rs)

/-- Embeds `release()` (lines 123-159). -/
def execRelease (s : VState A) (t : Nat) (b : A) : Option (VState A) :=
  if t < s.now then none
  else if s.paused then none
  else
    let res := releaseLoop t (s.schedules b) s.totalCommitted (s.totalVestedAmount b)
    if res.2.2.2 = 0 then none
    else if s.balance < res.2.2.2 then none
    else
      some { s with
        now := t
        schedules := Function.update s.schedules b res.1
        totalCommitted := res.2.1
        totalVestedAmount := Function.update s.totalVestedAmount b res.2.2.1
        balance := s.balance - res.2.2.2 }

/-- Embeds `revokeVesting` (lines 224-263). -/
def execRevokeVesting (s : VState A) (t : Nat) (b : A) (scheduleId : Nat) :
    Option (VState A) :=
  if t < s.now then none
  else if (s.schedules b).length ≤ scheduleId then none
  else
    let sch := (s.schedules b).getD scheduleId default
    if !sch.revocable then none
    else if sch.revoked then none
    else
      let vested := vestedAmount sch t
      let unvested := if vested < sch.totalAmount then sch.totalAmount - vested else 0
      if 0 < unvested ∧ s.balance < unvested then none
      else
        some { s with
          now := t
          schedules := Function.update s.schedules b
            ((s.schedules b).set scheduleId
              { sch with revoked := true })
          totalCommitted :=
            if unvested ≤ s.totalCommitted then s.totalCommitted - unvested else 0
          totalVestedAmount := Function.update s.totalVestedAmount b
            (if unvested ≤ s.totalVestedAmount b
             then s.totalVestedAmount b - unvested else 0)
          balance := s.balance - unvested }

/-- Embeds `emergencyWithdraw` (lines 269-275). -/
def execEmergencyWithdraw (s : VState A) (amount : Nat) : Option (VState A) :=
  if s.balance < amount then none
  else some { s with balance := s.balance - amount }

/-- An incoming token transfer funding the ledger (the contract must be
pre-funded before `createVesting` can promise anything). -/
def execFund (s : VState A) (amount : Nat) : Option (VState A) :=
  some { s with balance := s.balance + amount }

/-- External entry points of `TokenVesting`. -/
inductive VOp (A : Type) where
  | createVesting (t : Nat) (b : A) (totalAmount start duration cliff : Nat)
      (revocable : Bool)
  | release (t : Nat) (b : A)
  | releaseSchedule (t : Nat) (b : A) (scheduleId : Nat)
  | revokeVesting (t : Nat) (b : A) (scheduleId : Nat)
  | emergencyWithdraw (amount : Nat)
  | pause
  | unpause
  | fund (amount : Nat)

/-- Dispatch one vesting transaction. -/
def execVOp (s : VState A) : VOp A → Option (VState A)
  | .createVesting t b amt st dur cl rev => execCreateVesting s t b amt st dur cl rev
  | .release t b => execRelease s t b
  | .releaseSchedule t b i => execReleaseSchedule s t b i
  | .revokeVesting t b i => execRevokeVesting s t b i
  | .emergencyWithdraw amt => execEmergencyWithdraw s amt
  | .pause => if s.paused then none else some { s with paused := true }
  | .unpause => if s.paused then some { s with paused := false } else none
  | .fund amt => execFund s amt

/-- Transaction semantics: a reverted vesting call is a complete no-op. -/
def applyVOp (s : VState A) (op : VOp A) : VState A := (execVOp s op).getD s

/-- Run a history of vesting transactions. -/
def runVOps (s : VState A) (ops : List (VOp A)) : VState A := ops.foldl applyVOp s

/-- Reachability for the vesting ledger. -/
def VReachable (s : VState A) : Prop := ∃ ops : List (VOp A), s = runVOps (vInit A) ops

/-- Recognizer for the emergency-withdraw entry point. -/
def VOp.isEmergencyWithdraw : VOp A → Bool
  | .emergencyWithdraw _ => true
  | _ => false

/-- Reachability without the owner escape hatch `emergencyWithdraw`, which is
the only operation that can remove committed tokens from the ledger. -/
def VReachableSafe (s : VState A) : Prop :=
  ∃ ops : List (VOp A), (∀ op ∈ ops, op.isEmergencyWithdraw = false) ∧
    s = runVOps (vInit A) ops

/-- Recognizer for the `pausePhase` entry point. -/
def POp.isPausePhase : POp A → Bool
  | .pausePhase _ _ => true
  | _ => false

/-- Recognizer for the `setMaxPerWallet` entry point. -/
def POp.isSetMaxPerWallet : POp A → Bool
  | .setMaxPerWallet _ => true
  | _ => false

/-- Reachability without `pausePhase`. -/
def ReachableNoPausePhase (s : PState A) : Prop :=
  ∃ d sc mb mw : Nat, ∃ ops : List (POp A),
    0 < sc ∧ 0 < mb ∧ mb ≤ mw ∧ (∀ op ∈ ops, op.isPausePhase = false) ∧
    s = runOps (mkInit A d sc mb mw) ops

/-- Reachability without `setMaxPerWallet`. -/
def ReachableNoSetMax (s : PState A) : Prop :=
  ∃ d sc mb mw : Nat, ∃ ops : List (POp A),
    0 < sc ∧ 0 < mb ∧ mb ≤ mw ∧ (∀ op ∈ ops, op.isSetMaxPerWallet = false) ∧
    s = runOps (mkInit A d sc mb mw) ops

/-- Sum of a per-address quantity over the (finite) address space. -/
def finSum {A : Type} [Fintype A] (f : A → Nat) : Nat := ∑ a, f a

/-- Sum of all escrow entries. -/
def escSum [Fintype A] (s : PState A) : Nat := finSum s.escrowPayments

/-- Sum of all recorded contributions. -/
def conSum [Fintype A] (s : PState A) : Nat := finSum s.contributionsWei

/-- Sum of all pending token allocations. -/
def penSum [Fintype A] (s : PState A) : Nat := finSum s.pendingTokens

/-- Strengthened financial invariant of the presale ledger: the escrow
entries sum to `totalEscrow`, and the held balance covers the escrow reserve
— with, as long as the soft cap has not been reached (so refunds may still
convert contributions into escrow), additional cover for every recorded
contribution. -/
def SInv [Fintype A] (s : PState A) : Prop :=
  escSum s = s.totalEscrow ∧
  (s.softCapReached = false → s.totalEscrow + conSum s ≤ s.bank) ∧
  (s.softCapReached = true → s.totalEscrow ≤ s.bank)

/-- Token conservation: every allocated token unit is claimed, still pending,
or was forfeited by a refund. -/
def TokenInv [Fintype A] (s : PState A) : Prop :=
  s.totalTokensSold = s.claimedTokens + penSum s + s.forfeitedTokens

/-- Per-phase supply invariant. -/
def SoldLeSupply (s : PState A) : Prop := ∀ p ∈ s.phases, p.sold ≤ p.supply

/-- Disjointness of two phase windows as checked by `addPhase` /
`updatePhase`: one must end before the other starts. -/
def PhaseSep (p q : Phase) : Prop := p.end_ ≤ q.start ∨ q.end_ ≤ p.start

/-- Well-formedness of the phase list: every window is nonempty and the
windows are pairwise disjoint in the `PhaseSep` sense. -/
def PhasesWF (s : PState A) : Prop :=
  (∀ p ∈ s.phases, p.start < p.end_) ∧ s.phases.Pairwise PhaseSep

/-- Wallet-cap invariant. -/
def CapInv (s : PState A) : Prop := ∀ a : A, s.contributionsWei a ≤ s.maxPerWallet

/-- Vesting-side well-formedness of one schedule at time `t`: the creation
checks on `duration`/`cliff`, and (while not revoked) the released amount
never exceeds what has vested by `t`. -/
def schedOK (t : Nat) (sch : VSchedule) : Prop :=
  0 < sch.duration ∧ sch.cliff ≤ sch.duration ∧
  (sch.revoked = false → sch.released ≤ vestedAmount sch t)

/-- Outstanding (promised but unreleased) tokens of one schedule; a revoked
schedule no longer counts. -/
def schOutstanding (sch : VSchedule) : Nat :=
  if sch.revoked then 0 else sch.totalAmount - sch.released

/-- Outstanding (promised but unreleased) tokens of a schedule list. -/
def listCommitted : List VSchedule → Nat
  | [] => 0
  | sch :: rest => schOutstanding sch + listCommitted rest

/-- Outstanding tokens across all beneficiaries. -/
def commitSum [Fintype A] (s : VState A) : Nat := finSum fun a => listCommitted (s.schedules a)

/-- Strengthened vesting invariant (independent of `emergencyWithdraw`):
schedules are well-formed at the current time, and the outstanding
obligations are covered by `totalCommitted`, per-beneficiary by
`totalVestedAmount`. -/
def VInvCore [Fintype A] (s : VState A) : Prop :=
  (∀ a : A, ∀ sch ∈ s.schedules a, schedOK s.now sch) ∧
  commitSum s ≤ s.totalCommitted ∧
  (∀ a : A, listCommitted (s.schedules a) ≤ s.totalVestedAmount a)

/-- Funding invariant: the token balance covers `totalCommitted`; holds on
histories that never use `emergencyWithdraw`. -/
def VBalInv (s : VState A) : Prop := s.totalCommitted ≤ s.balance

/-- First-pass token amount of `buy()` for phase index `i`:
`tokensToBuy = msg.value * tokenUnit / phase.priceWei` (line 182). -/
def buyTokensRequested (s : PState A) (i v : Nat) : Nat :=
  v * tokenUnit s / (s.phases.getD i default).priceWei

/-- Allocated tokens: the request capped by the remaining phase supply
(lines 185-186). -/
def buyTokensAllocated (s : PState A) (i v : Nat) : Nat :=
  min (buyTokensRequested s i v)
    ((s.phases.getD i default).supply - (s.phases.getD i default).sold)

/-- Second-pass price: the cost recomputed from the allocated amount
(line 188). -/
def buyCost (s : PState A) (i v : Nat) : Nat :=
  buyTokensAllocated s i v * (s.phases.getD i default).priceWei / tokenUnit s

theorem finSum_update {A : Type} [Fintype A] [DecidableEq A]
    (f : A → Nat) (a : A) (b : Nat) :
    finSum (Function.update f a b) + f a = finSum f + b := by
  unfold finSum
  rw [Finset.sum_update_of_mem (Finset.mem_univ a), Finset.sdiff_singleton_eq_erase,
    ← Finset.add_sum_erase _ f (Finset.mem_univ a)]
  omega

theorem le_finSum {A : Type} [Fintype A] (f : A → Nat) (a : A) : f a ≤ finSum f :=
  Finset.single_le_sum (fun _ _ => Nat.zero_le _) (Finset.mem_univ a)

theorem runOps_preserve {P : PState A → Prop}
    (h : ∀ s s' op, P s → execOp s op = some s' → P s') :
    ∀ (ops : List (POp A)) (s : PState A), P s → P (runOps s ops) := by
  intro ops
  induction ops with
  | nil => intro s hs; exact hs
  | cons op rest ih =>
    intro s hs
    have hstep : P (applyOp s op) := by
      unfold applyOp
      cases hex : execOp s op with
      | none => exact hs
      | some s' => exact h s s' op hs hex
    exact ih _ hstep

theorem runOps_preserve_mem {P : PState A → Prop} {Q : POp A → Prop}
    (h : ∀ s s' op, Q op → P s → execOp s op = some s' → P s') :
    ∀ (ops : List (POp A)) (s : PState A), (∀ op ∈ ops, Q op) → P s →
      P (runOps s ops) := by
  intro ops
  induction ops with
  | nil => intro s _ hs; exact hs
  | cons op rest ih =>
    intro s hq hs
    have hstep : P (applyOp s op) := by
      unfold applyOp
      cases hex : execOp s op with
      | none => exact hs
      | some s' => exact h s s' op (hq op (List.mem_cons_self op rest)) hs hex
    exact ih _ (fun o ho => hq o (List.mem_cons_of_mem op ho)) hstep

theorem runVOps_preserve_mem {P : VState A → Prop} {Q : VOp A → Prop}
    (h : ∀ s s' op, Q op → P s → execVOp s op = some s' → P s') :
    ∀ (ops : List (VOp A)) (s : VState A), (∀ op ∈ ops, Q op) → P s →
      P (runVOps s ops) := by
  intro ops
  induction ops with
  | nil => intro s _ hs; exact hs
  | cons op rest ih =>
    intro s hq hs
    have hstep : P (applyVOp s op) := by
      unfold applyVOp
      cases hex : execVOp s op with
      | none => exact hs
      | some s' => exact h s s' op (hq op (List.mem_cons_self op rest)) hs hex
    exact ih _ (fun o ho => hq o (List.mem_cons_of_mem op ho)) hstep

theorem currentPhaseIndex_spec :
    ∀ (ps : List Phase) (now i : Nat), currentPhaseIndex ps now = some i →
      i < ps.length ∧ phaseActiveB (ps.getD i default) now = true := by
  intro ps
  induction ps with
  | nil => intro now i h; simp [currentPhaseIndex] at h
  | cons p rest ih =>
    intro now i h
    unfold currentPhaseIndex at h
    by_cases hp : phaseActiveB p now
    · rw [if_pos hp] at h
      cases h
      exact ⟨Nat.succ_pos _, hp⟩
    · rw [if_neg hp] at h
      rcases Option.map_eq_some'.mp h with ⟨j, hj, hij⟩
      rcases ih now j hj with ⟨hlt, hact⟩
      subst hij
      exact ⟨Nat.succ_lt_succ hlt, by simpa using hact⟩

theorem currentPhaseIndex_first :
    ∀ (ps : List Phase) (now i : Nat), currentPhaseIndex ps now = some i →
      ∀ j, j < i → phaseActiveB (ps.getD j default) now = false := by
  intro ps
  induction ps with
  | nil => intro now i h; simp [currentPhaseIndex] at h
  | cons p rest ih =>
    intro now i h j hj
    unfold currentPhaseIndex at h
    by_cases hp : phaseActiveB p now
    · rw [if_pos hp] at h
      cases h
      exact absurd hj (Nat.not_lt_zero j)
    · rw [if_neg hp] at h
      rcases Option.map_eq_some'.mp h with ⟨k, hk, hik⟩
      subst hik
      cases j with
      | zero => simpa using hp
      | succ j' =>
        have := ih now k hk j' (by omega)
        simpa using this

theorem phaseActiveB_sold_lt {p : Phase} {now : Nat}
    (h : phaseActiveB p now = true) : p.sold < p.supply := by
  unfold phaseActiveB at h
  simp only [Bool.and_eq_true, decide_eq_true_eq] at h
  exact h.2

theorem alloc_cost_le (v u price avail : Nat) (hu : 0 < u) :
    (if avail < v * u / price then avail else v * u / price) * price / u ≤ v := by
  have halloc : (if avail < v * u / price then avail else v * u / price) ≤ v * u / price := by
    split <;> omega
  have h1 : (if avail < v * u / price then avail else v * u / price) * price ≤ v * u :=
    le_trans (Nat.mul_le_mul halloc (le_refl price)) (Nat.div_mul_le_self _ _)
  calc (if avail < v * u / price then avail else v * u / price) * price / u
      ≤ v * u / u := Nat.div_le_div_right h1
    _ = v := Nat.mul_div_cancel v hu

theorem vestedAmount_le (sch : VSchedule) (t : Nat) (hdur : 0 < sch.duration) :
    vestedAmount sch t ≤ sch.totalAmount := by
  unfold vestedAmount
  split
  · exact Nat.zero_le _
  · split
    · exact le_refl _
    · rename_i hcl hmat
      simp only
      have he : t - sch.start ≤ sch.duration := by omega
      have h1 : sch.totalAmount / sch.duration * (t - sch.start) ≤
          sch.totalAmount / sch.duration * sch.duration :=
        Nat.mul_le_mul (le_refl _) he
      have h2 : sch.totalAmount % sch.duration * (t - sch.start) / sch.duration ≤
          sch.totalAmount % sch.duration := by
        calc sch.totalAmount % sch.duration * (t - sch.start) / sch.duration
            ≤ sch.totalAmount % sch.duration * sch.duration / sch.duration :=
              Nat.div_le_div_right (Nat.mul_le_mul (le_refl _) he)
          _ = sch.totalAmount % sch.duration := Nat.mul_div_cancel _ hdur
      have h3 : sch.duration * (sch.totalAmount / sch.duration) +
          sch.totalAmount % sch.duration = sch.totalAmount := Nat.div_add_mod _ _
      have h4 : sch.totalAmount / sch.duration * sch.duration =
          sch.duration * (sch.totalAmount / sch.duration) := Nat.mul_comm _ _
      omega

theorem vestedAmount_mono (sch : VSchedule) (hdur : 0 < sch.duration)
    {t1 t2 : Nat} (h : t1 ≤ t2) : vestedAmount sch t1 ≤ vestedAmount sch t2 := by
  by_cases c1 : t1 < sch.start + sch.cliff
  · have e1 : vestedAmount sch t1 = 0 := by unfold vestedAmount; rw [if_pos c1]
    rw [e1]; exact Nat.zero_le _
  · by_cases c2 : sch.start + sch.duration ≤ t1
    · have e1 : vestedAmount sch t1 = sch.totalAmount := by
        unfold vestedAmount; rw [if_neg c1, if_pos c2]
      have e2 : vestedAmount sch t2 = sch.totalAmount := by
        unfold vestedAmount; rw [if_neg (by omega), if_pos (by omega)]
      rw [e1, e2]
    · by_cases c3 : sch.start + sch.duration ≤ t2
      · have e2 : vestedAmount sch t2 = sch.totalAmount := by
          unfold vestedAmount; rw [if_neg (by omega), if_pos c3]
        rw [e2]; exact vestedAmount_le sch t1 hdur
      · have c1' : ¬ t2 < sch.start + sch.cliff := by omega
        unfold vestedAmount
        rw [if_neg c1, if_neg c2, if_neg c1', if_neg c3]
        simp only
        have he : t1 - sch.start ≤ t2 - sch.start := by omega
        exact Nat.add_le_add (Nat.mul_le_mul (le_refl _) he)
          (Nat.div_le_div_right (Nat.mul_le_mul (le_refl _) he))

theorem vestedAmount_at_maturity (sch : VSchedule) (hcl : sch.cliff ≤ sch.duration) :
    vestedAmount sch (sch.start + sch.duration) = sch.totalAmount := by
  unfold vestedAmount
  rw [if_neg (by omega), if_pos (le_refl _)]

theorem buyTokensAllocated_eq_ite (s : PState A) (i v : Nat) :
    buyTokensAllocated s i v =
      (if (s.phases.getD i default).supply - (s.phases.getD i default).sold <
            v * tokenUnit s / (s.phases.getD i default).priceWei
       then (s.phases.getD i default).supply - (s.phases.getD i default).sold
       else v * tokenUnit s / (s.phases.getD i default).priceWei) := by
  unfold buyTokensAllocated buyTokensRequested
  rw [Nat.min_def]
  split <;> split <;> omega

theorem buyResult_fields (s : PState A) (sender : A) (i v : Nat) :
    (buyResult s sender i v).totalRaised = s.totalRaised + buyCost s i v ∧
    (buyResult s sender i v).totalTokensSold =
      s.totalTokensSold + buyTokensAllocated s i v ∧
    (buyResult s sender i v).contributionsWei =
      Function.update s.contributionsWei sender
        (s.contributionsWei sender + buyCost s i v) ∧
    (buyResult s sender i v).pendingTokens =
      Function.update s.pendingTokens sender
        (s.pendingTokens sender + buyTokensAllocated s i v) ∧
    (buyResult s sender i v).phases =
      s.phases.set i
        { s.phases.getD i default with
          sold := (s.phases.getD i default).sold + buyTokensAllocated s i v } ∧
    (buyResult s sender i v).bank = s.bank + v ∧
    (buyResult s sender i v).buyers = insert sender s.buyers ∧
    (0 < v - buyCost s i v →
      (buyResult s sender i v).escrowPayments =
        Function.update s.escrowPayments sender
          (s.escrowPayments sender + (v - buyCost s i v)) ∧
      (buyResult s sender i v).totalEscrow = s.totalEscrow + (v - buyCost s i v)) ∧
    (v - buyCost s i v = 0 →
      (buyResult s sender i v).escrowPayments = s.escrowPayments ∧
      (buyResult s sender i v).totalEscrow = s.totalEscrow) ∧
    (buyResult s sender i v).saleEnded = s.saleEnded ∧
    (buyResult s sender i v).paused = s.paused ∧
    (buyResult s sender i v).claimedTokens = s.claimedTokens ∧
    (buyResult s sender i v).forfeitedTokens = s.forfeitedTokens ∧
    (buyResult s sender i v).softCap = s.softCap ∧
    (buyResult s sender i v).minBuy = s.minBuy ∧
    (buyResult s sender i v).maxPerWallet = s.maxPerWallet ∧
    (buyResult s sender i v).tokenDecimals = s.tokenDecimals ∧
    ((buyResult s sender i v).softCapReached = true ↔
      (s.softCapReached = true ∨ s.softCap ≤ s.totalRaised + buyCost s i v)) := by
  have hcost : buyCost s i v =
      (if (s.phases.getD i default).supply - (s.phases.getD i default).sold <
            v * tokenUnit s / (s.phases.getD i default).priceWei
       then (s.phases.getD i default).supply - (s.phases.getD i default).sold
       else v * tokenUnit s / (s.phases.getD i default).priceWei) *
        (s.phases.getD i default).priceWei / tokenUnit s := by
    unfold buyCost
    rw [buyTokensAllocated_eq_ite]
  refine ⟨?_, ?_, ?_, ?_, ?_, ?_, ?_, ?_, ?_, ?_, ?_, ?_, ?_, ?_, ?_, ?_, ?_, ?_⟩
  all_goals try rw [hcost]
  all_goals try rw [buyTokensAllocated_eq_ite]
  all_goals
    try (unfold buyResult; dsimp only; split <;> split <;> split <;> rfl)
  · intro h
    revert h
    unfold buyResult
    dsimp only
    split <;> split <;> split <;> intro h <;>
      first
        | exact ⟨rfl, rfl⟩
        | (exfalso; omega)
  · intro h
    revert h
    unfold buyResult
    dsimp only
    split <;> split <;> split <;> intro h <;>
      first
        | exact ⟨rfl, rfl⟩
        | (exfalso; omega)
  · unfold buyResult
    dsimp only
    split <;> split <;> split <;>
      (rename_i hlatch
       first
         | (simp only [Bool.and_eq_true, Bool.not_eq_true', decide_eq_true_eq] at hlatch
            exact iff_of_true rfl (Or.inr hlatch.2))
         | (simp only [Bool.and_eq_true, Bool.not_eq_true', decide_eq_true_eq,
              not_and] at hlatch
            cases hb : s.softCapReached
            · rw [hb] at hlatch
              exact iff_of_false (by simp)
                (by rintro (h | h)
                    · simp at h
                    · exact hlatch rfl h)
            · exact iff_of_true rfl (Or.inl rfl)))

theorem buyCost_eq_ite (s : PState A) (i v : Nat) :
    buyCost s i v =
      (if (s.phases.getD i default).supply - (s.phases.getD i default).sold <
            v * tokenUnit s / (s.phases.getD i default).priceWei
       then (s.phases.getD i default).supply - (s.phases.getD i default).sold
       else v * tokenUnit s / (s.phases.getD i default).priceWei) *
        (s.phases.getD i default).priceWei / tokenUnit s := by
  unfold buyCost
  rw [buyTokensAllocated_eq_ite]

theorem execBuy_some_inv {s : PState A} {sender : A} {now v : Nat} {s' : PState A}
    (h : execBuy s sender now v = some s') :
    s.paused = false ∧ s.saleEnded = false ∧ s.minBuy ≤ v ∧
    ∃ i, currentPhaseIndex s.phases now = some i ∧
      0 < buyTokensRequested s i v ∧
      s.contributionsWei sender + buyCost s i v ≤ s.maxPerWallet ∧
      s' = buyResult s sender i v := by
  unfold execBuy at h
  split at h
  · exact Option.noConfusion h
  rename_i hp
  split at h
  · exact Option.noConfusion h
  rename_i he
  split at h
  · exact Option.noConfusion h
  rename_i hv
  split at h
  · exact Option.noConfusion h
  rename_i i hcpi
  dsimp only at h
  split at h
  · exact Option.noConfusion h
  rename_i hreq
  rw [← buyCost_eq_ite s i v] at h
  split at h
  · exact Option.noConfusion h
  rename_i hcap
  refine ⟨by simpa using hp, by simpa using he, by omega, i, hcpi, ?_, ?_, ?_⟩
  · unfold buyTokensRequested
    exact Nat.pos_of_ne_zero hreq
  · omega
  · exact (Option.some.injEq _ _).mp h.symm

theorem execBuy_none_of_zero_tokens (s : PState A) (sender : A) (now v : Nat)
    (i : Nat) (hcpi : currentPhaseIndex s.phases now = some i)
    (hreq : buyTokensRequested s i v = 0) :
    execBuy s sender now v = none := by
  unfold buyTokensRequested at hreq
  unfold execBuy
  by_cases hp : s.paused
  · simp [hp]
  by_cases he : s.saleEnded
  · simp [hp, he]
  by_cases hv : v < s.minBuy
  · simp [hp, he, hv]
  have hreq' : v * tokenUnit s / (s.phases[i]?.getD default).priceWei = 0 := by
    simpa [List.getD_eq_getElem?_getD] using hreq
  simp [hp, he, hv, hcpi, hreq, hreq']

/-- C1: every successful `buy(amount)` buys from the first active phase
(the first index whose phase passes the activity test, which includes
`sold < supply`) and uses the two-pass computation:
`tokensRequested = floor(amount * tokenUnit / unitPrice)` (failing with
ZeroTokens when 0), `tokensAllocated = min(tokensRequested, supply - sold)`,
`cost = floor(tokensAllocated * unitPrice / tokenUnit)` recomputed from the
allocated quantity; it adds exactly `cost` to `totalRaised` and the sender's
contribution, exactly `tokensAllocated` to the phase's `sold`,
`totalTokensSold` and the sender's `pendingTokens`, and queues exactly
`amount - cost` into the sender's escrow entry iff that difference is
positive. -/
theorem buy_two_pass_effects (s : PState A) (sender : A) (now v : Nat) :
    (∀ i, currentPhaseIndex s.phases now = some i →
      buyTokensRequested s i v = 0 → execBuy s sender now v = none) ∧
    (∀ s', execBuy s sender now v = some s' →
      ∃ i, currentPhaseIndex s.phases now = some i ∧
        phaseActiveB (s.phases.getD i default) now = true ∧
        (∀ j, j < i → phaseActiveB (s.phases.getD j default) now = false) ∧
        0 < buyTokensRequested s i v ∧
        buyTokensRequested s i v =
          v * tokenUnit s / (s.phases.getD i default).priceWei ∧
        buyTokensAllocated s i v =
          min (buyTokensRequested s i v)
            ((s.phases.getD i default).supply - (s.phases.getD i default).sold) ∧
        buyCost s i v =
          buyTokensAllocated s i v * (s.phases.getD i default).priceWei /
            tokenUnit s ∧
        s'.totalRaised = s.totalRaised + buyCost s i v ∧
        s'.contributionsWei sender = s.contributionsWei sender + buyCost s i v ∧
        s'.phases = s.phases.set i
          { s.phases.getD i default with
            sold := (s.phases.getD i default).sold + buyTokensAllocated s i v } ∧
        s'.totalTokensSold = s.totalTokensSold + buyTokensAllocated s i v ∧
        s'.pendingTokens sender = s.pendingTokens sender + buyTokensAllocated s i v ∧
        (0 < v - buyCost s i v →
          s'.escrowPayments sender = s.escrowPayments sender + (v - buyCost s i v) ∧
          s'.totalEscrow = s.totalEscrow + (v - buyCost s i v)) ∧
        (v - buyCost s i v = 0 →
          s'.escrowPayments sender = s.escrowPayments sender ∧
          s'.totalEscrow = s.totalEscrow)) := by
  constructor
  · intro i hcpi hreq
    exact execBuy_none_of_zero_tokens s sender now v i hcpi hreq
  · intro s' h
    obtain ⟨-, -, -, i, hcpi, hpos, -, hs'⟩ := execBuy_some_inv h
    subst hs'
    obtain ⟨h1, h2, h3, h4, h5, -, -, h8, h9, -⟩ := buyResult_fields s sender i v
    refine ⟨i, hcpi, (currentPhaseIndex_spec s.phases now i hcpi).2,
      currentPhaseIndex_first s.phases now i hcpi, hpos, rfl, rfl, rfl, h1, ?_,
      h5, h2, ?_, ?_, ?_⟩
    · rw [h3, Function.update_same]
    · rw [h4, Function.update_same]
    · intro hx
      obtain ⟨e1, e2⟩ := h8 hx
      rw [e1, Function.update_same]
      exact ⟨rfl, e2⟩
    · intro hx
      obtain ⟨e1, e2⟩ := h9 hx
      rw [e1]
      exact ⟨rfl, e2⟩

/-- Witness for `buy_two_pass_effects` at a concrete purchase: one phase at
price 3, supply 100; a buy of `msg.value` 10 with `tokenUnit = 1` requests
and allocates 3 token units at cost 9 and queues the excess 1. -/
theorem buy_two_pass_effects_witness :
    ((execBuy (runOps (mkInit (Fin 1) 0 1000 1 1000) [.addPhase 0 3 100 1 10])
        0 5 10).getD (mkInit (Fin 1) 0 1000 1 1000)).totalRaised = 9 := by
  have h := (buy_two_pass_effects
    (runOps (mkInit (Fin 1) 0 1000 1 1000) [.addPhase 0 3 100 1 10]) 0 5 10).2
    ((execBuy (runOps (mkInit (Fin 1) 0 1000 1 1000) [.addPhase 0 3 100 1 10])
        0 5 10).getD (mkInit (Fin 1) 0 1000 1 1000)) rfl
  obtain ⟨i, hcpi, -, -, -, -, -, -, h6, -⟩ := h
  have hzero : currentPhaseIndex
      (runOps (mkInit (Fin 1) 0 1000 1 1000) [.addPhase 0 3 100 1 10]).phases 5 =
      some 0 := by decide
  rw [hzero] at hcpi
  have hi : i = 0 := by
    injection hcpi with h0
    omega
  subst hi
  rw [h6]
  decide

/-- C2: whenever `buy(amount)` fails — amount below `minBuy`, no active
phase, zero tokens requested, wallet cap exceeded, sale ended, or contract
paused — the call reverts (`execBuy` is `none`) and the transaction is a
complete no-op: every component of the state keeps its prior value. -/
theorem buy_failure_no_partial_effects (s : PState A) (sender : A) (now v : Nat)
    (h : v < s.minBuy ∨
      currentPhaseIndex s.phases now = none ∨
      (∀ i, currentPhaseIndex s.phases now = some i → buyTokensRequested s i v = 0) ∨
      (∀ i, currentPhaseIndex s.phases now = some i →
        s.maxPerWallet < s.contributionsWei sender + buyCost s i v) ∨
      s.saleEnded = true ∨
      s.paused = true) :
    execBuy s sender now v = none ∧ applyOp s (POp.buy sender now v) = s := by
  have hnone : execBuy s sender now v = none := by
    cases hex : execBuy s sender now v with
    | none => rfl
    | some s' =>
      exfalso
      obtain ⟨hp, he, hv, i, hcpi, hpos, hcap, -⟩ := execBuy_some_inv hex
      rcases h with h | h | h | h | h | h
      · omega
      · rw [h] at hcpi
        exact Option.noConfusion hcpi
      · have := h i hcpi
        omega
      · have := h i hcpi
        omega
      · rw [he] at h
        exact Bool.noConfusion h
      · rw [hp] at h
        exact Bool.noConfusion h
  refine ⟨hnone, ?_⟩
  show (execOp s (POp.buy sender now v)).getD s = s
  show (execBuy s sender now v).getD s = s
  rw [hnone]
  rfl

/-- Witness for `buy_failure_no_partial_effects`: in the freshly constructed
state a buy below the minimum (and with no phase configured) reverts and
leaves the state exactly as it was. -/
theorem buy_failure_no_partial_effects_witness :
    execBuy (mkInit (Fin 1) 0 1000 5 1000) 0 3 2 = none ∧
    applyOp (mkInit (Fin 1) 0 1000 5 1000) (POp.buy 0 3 2) =
      mkInit (Fin 1) 0 1000 5 1000 :=
  buy_failure_no_partial_effects (mkInit (Fin 1) 0 1000 5 1000) 0 3 2
    (Or.inl (by decide))

/-- C10: the recomputed cost never exceeds the amount sent —
`floor(min(floor(amount*tokenUnit/priceWei), available) * priceWei /
tokenUnit) ≤ amount` — so the unguarded subtraction `excess = amount - cost`
(line 191, and line 304 of the preview) can never underflow: the excess is
exactly `amount - cost` and `cost + excess = amount`.  The bound needs no
assumption on the phase: `tokenUnit = 10 ^ tokenDecimals` is positive. -/
theorem cost_never_exceeds_amount (s : PState A) (now v : Nat) :
    (∀ i, currentPhaseIndex s.phases now = some i → buyCost s i v ≤ v) ∧
    (calculateTokens s now v).2.1 ≤ v ∧
    (calculateTokens s now v).2.1 + (calculateTokens s now v).2.2 = v := by
  have hu : 0 < tokenUnit s := pow_pos (by norm_num) _
  have hbound : ∀ i : Nat, buyCost s i v ≤ v := by
    intro i
    rw [buyCost_eq_ite]
    exact alloc_cost_le v (tokenUnit s) (s.phases.getD i default).priceWei
      ((s.phases.getD i default).supply - (s.phases.getD i default).sold) hu
  refine ⟨fun i _ => hbound i, ?_⟩
  cases hcpi : currentPhaseIndex s.phases now with
  | none =>
    have hcalc : calculateTokens s now v = (0, 0, v) := by
      unfold calculateTokens
      rw [hcpi]
    rw [hcalc]
    refine ⟨Nat.zero_le _, ?_⟩
    show 0 + v = v
    omega
  | some i =>
    have hle := hbound i
    rw [buyCost_eq_ite] at hle
    have hcalc : calculateTokens s now v =
        ((if (s.phases.getD i default).supply - (s.phases.getD i default).sold <
              v * tokenUnit s / (s.phases.getD i default).priceWei
          then (s.phases.getD i default).supply - (s.phases.getD i default).sold
          else v * tokenUnit s / (s.phases.getD i default).priceWei),
         (if (s.phases.getD i default).supply - (s.phases.getD i default).sold <
              v * tokenUnit s / (s.phases.getD i default).priceWei
          then (s.phases.getD i default).supply - (s.phases.getD i default).sold
          else v * tokenUnit s / (s.phases.getD i default).priceWei) *
            (s.phases.getD i default).priceWei / tokenUnit s,
         v - (if (s.phases.getD i default).supply - (s.phases.getD i default).sold <
              v * tokenUnit s / (s.phases.getD i default).priceWei
          then (s.phases.getD i default).supply - (s.phases.getD i default).sold
          else v * tokenUnit s / (s.phases.getD i default).priceWei) *
            (s.phases.getD i default).priceWei / tokenUnit s) := by
      unfold calculateTokens
      rw [hcpi]
    rw [hcalc]
    exact ⟨hle, by dsimp only; omega⟩

/-- Witness for `cost_never_exceeds_amount` on the configured single-phase
state (a hypothesis-free instantiation evaluating the preview). -/
theorem cost_never_exceeds_amount_witness :
    (calculateTokens (runOps (mkInit (Fin 1) 0 1000 1 1000)
        [.addPhase 0 3 100 1 10]) 5 10).2.1 ≤ 10 :=
  (cost_never_exceeds_amount (runOps (mkInit (Fin 1) 0 1000 1 1000)
    [.addPhase 0 3 100 1 10]) 5 10).2.1

theorem timeActiveB_eq_phaseActiveB (p : Phase) (now : Nat)
    (h1 : 0 < p.start) (h2 : 0 < p.end_) (h3 : p.sold < p.supply) :
    timeActiveB p now = phaseActiveB p now := by
  unfold timeActiveB phaseActiveB
  have e1 : (p.start == 0) = false := by
    simp only [beq_eq_false_iff_ne, ne_eq]
    omega
  have e2 : (p.end_ == 0) = false := by
    simp only [beq_eq_false_iff_ne, ne_eq]
    omega
  rw [e1, e2]
  simp [h3]

/-- C6 (amended): `getCurrentPhase` checks only the time window.  It fails
exactly when no phase is time-active, returns the first time-active index
otherwise, and agrees with the non-throwing `_currentPhaseIndex` lookup only
when every phase has nonzero bounds and remaining supply; a sold-out
time-active phase makes the two disagree (see the counterexample). -/
theorem getCurrentPhase_time_only (ps : List Phase) (now : Nat) :
    (getCurrentPhase ps now = none ↔ ∀ p ∈ ps, timeActiveB p now = false) ∧
    (∀ i, getCurrentPhase ps now = some i → i < ps.length ∧
      timeActiveB (ps.getD i default) now = true ∧
      ∀ j, j < i → timeActiveB (ps.getD j default) now = false) ∧
    ((∀ p ∈ ps, 0 < p.start ∧ 0 < p.end_ ∧ p.sold < p.supply) →
      getCurrentPhase ps now = currentPhaseIndex ps now) := by
  induction ps with
  | nil =>
    refine ⟨by simp [getCurrentPhase], ?_, ?_⟩
    · intro i h
      simp [getCurrentPhase] at h
    · intro _
      rfl
  | cons p rest ih =>
    refine ⟨?_, ?_, ?_⟩
    · constructor
      · intro h q hq
        unfold getCurrentPhase at h
        by_cases hp : timeActiveB p now
        · rw [if_pos hp] at h
          exact Option.noConfusion h
        · rw [if_neg hp] at h
          rcases List.mem_cons.mp hq with rfl | hq'
          · simpa using hp
          · exact ih.1.mp (by
              cases hrest : getCurrentPhase rest now with
              | none => rfl
              | some j => rw [hrest] at h; exact Option.noConfusion h) q hq'
      · intro h
        unfold getCurrentPhase
        rw [if_neg (by simpa using h p (List.mem_cons_self p rest)),
          ih.1.mpr fun q hq => h q (List.mem_cons_of_mem p hq)]
        rfl
    · intro i h
      unfold getCurrentPhase at h
      by_cases hp : timeActiveB p now
      · rw [if_pos hp] at h
        injection h with h0
        subst h0
        exact ⟨Nat.succ_pos _, hp, fun j hj => absurd hj (Nat.not_lt_zero j)⟩
      · rw [if_neg hp] at h
        rcases Option.map_eq_some'.mp h with ⟨j, hj, hij⟩
        obtain ⟨hlt, hact, hfirst⟩ := ih.2.1 j hj
        subst hij
        refine ⟨Nat.succ_lt_succ hlt, by simpa using hact, ?_⟩
        intro k hk
        cases k with
        | zero => simpa using hp
        | succ k' =>
          have := hfirst k' (by omega)
          simpa using this
    · intro h
      unfold getCurrentPhase currentPhaseIndex
      obtain ⟨h1, h2, h3⟩ := h p (List.mem_cons_self p rest)
      rw [timeActiveB_eq_phaseActiveB p now h1 h2 h3]
      by_cases hp : phaseActiveB p now
      · rw [if_pos hp, if_pos hp]
      · rw [if_neg hp, if_neg hp,
          ih.2.2 fun q hq => h q (List.mem_cons_of_mem p hq)]

/-- Witness for `getCurrentPhase_time_only`: on a single not-sold-out phase
the two lookups agree, and the characterization names index 0. -/
theorem getCurrentPhase_time_only_witness :
    getCurrentPhase [⟨3, 100, 0, 1, 10⟩] 5 =
      currentPhaseIndex [⟨3, 100, 0, 1, 10⟩] 5 ∧
    (0 : Nat) < [(⟨3, 100, 0, 1, 10⟩ : Phase)].length :=
  ⟨(getCurrentPhase_time_only [⟨3, 100, 0, 1, 10⟩] 5).2.2 (by decide),
   ((getCurrentPhase_time_only [⟨3, 100, 0, 1, 10⟩] 5).2.1 0 (by decide)).1⟩

/-- Counterexample to C6 as stated: a reachable configuration (one phase of
supply 5 fully bought out) in which the reverting variant still returns the
sold-out phase while `_currentPhaseIndex` correctly reports none — so
`getCurrentPhase` does not fail exactly when no phase satisfies
`start ≤ now ≤ end ∧ sold < supply`. -/
theorem getCurrentPhase_disagrees_cex :
    (runOps (mkInit (Fin 1) 0 1000 1 1000)
        [.addPhase 0 1 5 10 20, .buy 0 15 5]).phases =
      [⟨1, 5, 5, 10, 20⟩] ∧
    currentPhaseIndex (runOps (mkInit (Fin 1) 0 1000 1 1000)
        [.addPhase 0 1 5 10 20, .buy 0 15 5]).phases 16 = none ∧
    getCurrentPhase (runOps (mkInit (Fin 1) 0 1000 1 1000)
        [.addPhase 0 1 5 10 20, .buy 0 15 5]).phases 16 = some 0 := by
  refine ⟨?_, ?_, ?_⟩ <;> decide

theorem execWithdrawPayments_some {s s' : PState A} {sender : A}
    (h : execWithdrawPayments s sender = some s') :
    s.escrowPayments sender ≠ 0 ∧ s.escrowPayments sender ≤ s.bank ∧
    s' = { s with
      escrowPayments := Function.update s.escrowPayments sender 0
      totalEscrow := if s.escrowPayments sender ≤ s.totalEscrow
        then s.totalEscrow - s.escrowPayments sender else 0
      bank := s.bank - s.escrowPayments sender } := by
  unfold execWithdrawPayments at h
  dsimp only at h
  split at h
  · exact Option.noConfusion h
  rename_i h1
  split at h
  · exact Option.noConfusion h
  rename_i h2
  exact ⟨h1, by omega, ((Option.some.injEq _ _).mp h).symm⟩

theorem execClaim_some {s s' : PState A} {sender : A}
    (h : execClaim s sender = some s') :
    s.paused = false ∧ s.saleEnded = true ∧ s.softCapReached = true ∧
    s.pendingTokens sender ≠ 0 ∧
    s' = { s with
      pendingTokens := Function.update s.pendingTokens sender 0
      claimedTokens := s.claimedTokens + s.pendingTokens sender } := by
  unfold execClaim at h
  dsimp only at h
  split at h
  · exact Option.noConfusion h
  rename_i h1
  split at h
  · exact Option.noConfusion h
  rename_i h2
  split at h
  · exact Option.noConfusion h
  rename_i h3
  split at h
  · exact Option.noConfusion h
  rename_i h4
  exact ⟨by simpa using h1, by simpa using h2, by simpa using h3, h4,
    ((Option.some.injEq _ _).mp h).symm⟩

theorem execRequestRefund_some {s s' : PState A} {sender : A}
    (h : execRequestRefund s sender = some s') :
    s.paused = false ∧ s.saleEnded = true ∧ s.softCapReached = false ∧
    s.contributionsWei sender ≠ 0 ∧
    s' = { s with
      contributionsWei := Function.update s.contributionsWei sender 0
      pendingTokens := Function.update s.pendingTokens sender 0
      escrowPayments := Function.update s.escrowPayments sender
        (s.escrowPayments sender + s.contributionsWei sender)
      totalEscrow := s.totalEscrow + s.contributionsWei sender
      forfeitedTokens := s.forfeitedTokens + s.pendingTokens sender } := by
  unfold execRequestRefund at h
  dsimp only at h
  split at h
  · exact Option.noConfusion h
  rename_i h1
  split at h
  · exact Option.noConfusion h
  rename_i h2
  split at h
  · exact Option.noConfusion h
  rename_i h3
  split at h
  · exact Option.noConfusion h
  rename_i h4
  exact ⟨by simpa using h1, by simpa using h2, by simpa using h3, h4,
    ((Option.some.injEq _ _).mp h).symm⟩

theorem execWithdrawProceeds_some {s s' : PState A}
    (h : execWithdrawProceeds s = some s') :
    s.saleEnded = true ∧ s.softCapReached = true ∧ s.totalEscrow < s.bank ∧
    s' = { s with bank := s.bank - (s.bank - s.totalEscrow) } := by
  unfold execWithdrawProceeds at h
  split at h
  · exact Option.noConfusion h
  rename_i h1
  split at h
  · exact Option.noConfusion h
  rename_i h2
  split at h
  · exact Option.noConfusion h
  rename_i h3
  exact ⟨by simpa using h1, by simpa using h2, by omega,
    ((Option.some.injEq _ _).mp h).symm⟩

theorem execEndSale_some {s s' : PState A} (h : execEndSale s = some s') :
    s.saleEnded = false ∧ s' = { s with saleEnded := true } := by
  unfold execEndSale at h
  split at h
  · exact Option.noConfusion h
  rename_i h1
  exact ⟨by simpa using h1, ((Option.some.injEq _ _).mp h).symm⟩

theorem execAddPhase_some {s s' : PState A} {now p sup st en : Nat}
    (h : execAddPhase s now p sup st en = some s') :
    p ≠ 0 ∧ sup ≠ 0 ∧ st < en ∧ now < st ∧
    (∀ q ∈ s.phases, q.end_ ≤ st ∨ en ≤ q.start) ∧
    s' = { s with phases := s.phases ++ [⟨p, sup, 0, st, en⟩] } := by
  unfold execAddPhase at h
  split at h
  · exact Option.noConfusion h
  rename_i h1
  split at h
  · exact Option.noConfusion h
  rename_i h2
  split at h
  · exact Option.noConfusion h
  rename_i h3
  split at h
  · exact Option.noConfusion h
  rename_i h4
  split at h
  · exact Option.noConfusion h
  rename_i h5
  refine ⟨h1, h2, by omega, by omega, ?_, ((Option.some.injEq _ _).mp h).symm⟩
  intro q hq
  have h6 : st < q.end_ → en ≤ q.start := (by simpa using h5 :
    ∀ x ∈ s.phases, st < x.end_ → en ≤ x.start) q hq
  omega

theorem execUpdatePhase_some {s s' : PState A} {now i ns ne : Nat}
    (h : execUpdatePhase s now i ns ne = some s') :
    i < s.phases.length ∧ ns < ne ∧ now < (s.phases.getD i default).start ∧
    (∀ j, j < s.phases.length → j ≠ i →
      (s.phases.getD j default).end_ ≤ ns ∨ ne ≤ (s.phases.getD j default).start) ∧
    s' = { s with phases :=
      s.phases.set i { s.phases.getD i default with start := ns, end_ := ne } } := by
  unfold execUpdatePhase at h
  split at h
  · exact Option.noConfusion h
  rename_i h1
  split at h
  · exact Option.noConfusion h
  rename_i h2
  dsimp only at h
  split at h
  · exact Option.noConfusion h
  rename_i h3
  split at h
  · exact Option.noConfusion h
  rename_i h4
  refine ⟨by omega, by omega, by omega, ?_, ((Option.some.injEq _ _).mp h).symm⟩
  intro j hj hji
  have h6 : ns < (s.phases.getD j default).end_ →
      ne ≤ (s.phases.getD j default).start := by
    have h5 := (by simpa using h4 :
      ∀ x < s.phases.length, ¬x = i →
        ns < (s.phases[x]?.getD default).end_ →
          ne ≤ (s.phases[x]?.getD default).start) j hj hji
    simpa [List.getD_eq_getElem?_getD] using h5
  omega

theorem execPausePhase_some {s s' : PState A} {now i : Nat}
    (h : execPausePhase s now i = some s') :
    i < s.phases.length ∧
    s' = { s with phases :=
      s.phases.set i { s.phases.getD i default with end_ := now } } := by
  unfold execPausePhase at h
  split at h
  · exact Option.noConfusion h
  rename_i h1
  exact ⟨by omega, ((Option.some.injEq _ _).mp h).symm⟩

theorem execPause_some {s s' : PState A} (h : execPause s = some s') :
    s' = { s with paused := true } := by
  unfold execPause at h
  split at h
  · exact Option.noConfusion h
  exact ((Option.some.injEq _ _).mp h).symm

theorem execUnpause_some {s s' : PState A} (h : execUnpause s = some s') :
    s' = { s with paused := false } := by
  unfold execUnpause at h
  split at h
  · exact ((Option.some.injEq _ _).mp h).symm
  · exact Option.noConfusion h

theorem execSetSoftCap_some {s s' : PState A} {v : Nat}
    (h : execSetSoftCap s v = some s') :
    v ≠ 0 ∧ s.softCapReached = false ∧ s' = { s with softCap := v } := by
  unfold execSetSoftCap at h
  split at h
  · exact Option.noConfusion h
  rename_i h1
  split at h
  · exact Option.noConfusion h
  rename_i h2
  exact ⟨h1, by simpa using h2, ((Option.some.injEq _ _).mp h).symm⟩

theorem execSetMinBuy_some {s s' : PState A} {v : Nat}
    (h : execSetMinBuy s v = some s') :
    v ≠ 0 ∧ v ≤ s.maxPerWallet ∧ s' = { s with minBuy := v } := by
  unfold execSetMinBuy at h
  split at h
  · exact Option.noConfusion h
  rename_i h1
  split at h
  · exact Option.noConfusion h
  rename_i h2
  exact ⟨h1, by omega, ((Option.some.injEq _ _).mp h).symm⟩

theorem execSetMaxPerWallet_some {s s' : PState A} {v : Nat}
    (h : execSetMaxPerWallet s v = some s') :
    s.minBuy ≤ v ∧ s' = { s with maxPerWallet := v } := by
  unfold execSetMaxPerWallet at h
  split at h
  · exact Option.noConfusion h
  rename_i h1
  exact ⟨by omega, ((Option.some.injEq _ _).mp h).symm⟩

theorem execReceive_some {s s' : PState A} {v : Nat}
    (h : execReceive s v = some s') :
    s' = { s with bank := s.bank + v } :=
  ((Option.some.injEq _ _).mp h).symm

theorem sinv_init (A : Type) [DecidableEq A] [Fintype A] (d sc mb mw : Nat) :
    SInv (mkInit A d sc mb mw) := by
  refine ⟨?_, ?_, ?_⟩
  · show finSum (fun _ : A => 0) = 0
    unfold finSum
    simp
  · intro _
    show 0 + conSum (mkInit A d sc mb mw) ≤ 0
    have : conSum (mkInit A d sc mb mw) = 0 := by
      show finSum (fun _ : A => 0) = 0
      unfold finSum
      simp
    omega
  · intro h
    exact Bool.noConfusion h

theorem sinv_step [Fintype A] (s s' : PState A) (op : POp A)
    (hinv : SInv s) (hex : execOp s op = some s') : SInv s' := by
  obtain ⟨hesc, hlow, hhigh⟩ := hinv
  have hEbank : s.totalEscrow ≤ s.bank := by
    cases hsc : s.softCapReached
    · have := hlow hsc
      omega
    · exact hhigh hsc
  cases op with
  | buy sender now v =>
    obtain ⟨hp, he, hv, i, hcpi, hpos, hcap, hs'⟩ := execBuy_some_inv hex
    subst hs'
    obtain ⟨h1, h2, h3, h4, h5, h6, h7, h8, h9, h10, h11, h12, h13, h14, h15,
      h16, h17, h18⟩ := buyResult_fields s sender i v
    have hcost_le : buyCost s i v ≤ v := by
      rw [buyCost_eq_ite]
      exact alloc_cost_le v (tokenUnit s) (s.phases.getD i default).priceWei
        ((s.phases.getD i default).supply - (s.phases.getD i default).sold)
        (pow_pos (by norm_num) _)
    have hcon : conSum (buyResult s sender i v) =
        conSum s + buyCost s i v := by
      have hupd := finSum_update s.contributionsWei sender
        (s.contributionsWei sender + buyCost s i v)
      unfold conSum
      rw [h3]
      omega
    have hescnew : escSum (buyResult s sender i v) =
        s.totalEscrow + (v - buyCost s i v) := by
      by_cases hx : 0 < v - buyCost s i v
      · obtain ⟨e1, -⟩ := h8 hx
        have hupd := finSum_update s.escrowPayments sender
          (s.escrowPayments sender + (v - buyCost s i v))
        unfold escSum
        rw [e1]
        unfold escSum at hesc
        omega
      · obtain ⟨e1, -⟩ := h9 (by omega)
        unfold escSum
        rw [e1]
        unfold escSum at hesc
        omega
    have hE : (buyResult s sender i v).totalEscrow =
        s.totalEscrow + (v - buyCost s i v) := by
      by_cases hx : 0 < v - buyCost s i v
      · exact (h8 hx).2
      · rw [(h9 (by omega)).2]
        omega
    refine ⟨by rw [hescnew, hE], ?_, ?_⟩
    · intro hflag
      have hold : s.softCapReached = false := by
        cases hb : s.softCapReached
        · rfl
        · exact absurd (h18.mpr (Or.inl hb)) (by rw [hflag]; exact Bool.noConfusion)
      have := hlow hold
      rw [hE, hcon, h6]
      omega
    · intro hflag
      rw [hE, h6]
      omega
  | withdrawPayments sender =>
    obtain ⟨hne, hble, hs'⟩ := execWithdrawPayments_some hex
    subst hs'
    have hple : s.escrowPayments sender ≤ s.totalEscrow := by
      rw [← hesc]
      exact le_finSum s.escrowPayments sender
    have hupd := finSum_update s.escrowPayments sender 0
    refine ⟨?_, ?_, ?_⟩
    · show finSum (Function.update s.escrowPayments sender 0) =
        (if s.escrowPayments sender ≤ s.totalEscrow
         then s.totalEscrow - s.escrowPayments sender else 0)
      rw [if_pos hple]
      unfold escSum at hesc
      omega
    · intro hflag
      have := hlow hflag
      show (if s.escrowPayments sender ≤ s.totalEscrow
        then s.totalEscrow - s.escrowPayments sender else 0) + conSum s ≤
        s.bank - s.escrowPayments sender
      rw [if_pos hple]
      omega
    · intro hflag
      have := hhigh hflag
      show (if s.escrowPayments sender ≤ s.totalEscrow
        then s.totalEscrow - s.escrowPayments sender else 0) ≤
        s.bank - s.escrowPayments sender
      rw [if_pos hple]
      omega
  | claim sender =>
    obtain ⟨-, -, -, -, hs'⟩ := execClaim_some hex
    subst hs'
    exact ⟨hesc, hlow, hhigh⟩
  | requestRefund sender =>
    obtain ⟨-, -, hflag, hne, hs'⟩ := execRequestRefund_some hex
    subst hs'
    have hcle : s.contributionsWei sender ≤ finSum s.contributionsWei :=
      le_finSum s.contributionsWei sender
    have hupde := finSum_update s.escrowPayments sender
      (s.escrowPayments sender + s.contributionsWei sender)
    have hupdc := finSum_update s.contributionsWei sender 0
    refine ⟨?_, ?_, ?_⟩
    · show finSum (Function.update s.escrowPayments sender
        (s.escrowPayments sender + s.contributionsWei sender)) =
        s.totalEscrow + s.contributionsWei sender
      unfold escSum at hesc
      omega
    · intro _
      have hl := hlow hflag
      unfold conSum at hl
      show (s.totalEscrow + s.contributionsWei sender) +
        finSum (Function.update s.contributionsWei sender 0) ≤ s.bank
      omega
    · intro hfl
      exact absurd hfl (by rw [hflag]; exact Bool.noConfusion)
  | withdrawProceeds =>
    obtain ⟨-, hflag, hlt, hs'⟩ := execWithdrawProceeds_some hex
    subst hs'
    refine ⟨hesc, ?_, ?_⟩
    · intro hfl
      exact absurd hfl (by rw [hflag]; exact Bool.noConfusion)
    · intro _
      show s.totalEscrow ≤ s.bank - (s.bank - s.totalEscrow)
      omega
  | endSale =>
    obtain ⟨-, hs'⟩ := execEndSale_some hex
    subst hs'
    exact ⟨hesc, hlow, hhigh⟩
  | addPhase now p sup st en =>
    obtain ⟨-, -, -, -, -, hs'⟩ := execAddPhase_some hex
    subst hs'
    exact ⟨hesc, hlow, hhigh⟩
  | updatePhase now i ns ne =>
    obtain ⟨-, -, -, -, hs'⟩ := execUpdatePhase_some hex
    subst hs'
    exact ⟨hesc, hlow, hhigh⟩
  | pausePhase now i =>
    obtain ⟨-, hs'⟩ := execPausePhase_some hex
    subst hs'
    exact ⟨hesc, hlow, hhigh⟩
  | pause =>
    have hs' := execPause_some hex
    subst hs'
    exact ⟨hesc, hlow, hhigh⟩
  | unpause =>
    have hs' := execUnpause_some hex
    subst hs'
    exact ⟨hesc, hlow, hhigh⟩
  | setSoftCap v =>
    obtain ⟨-, -, hs'⟩ := execSetSoftCap_some hex
    subst hs'
    exact ⟨hesc, hlow, hhigh⟩
  | setMinBuy v =>
    obtain ⟨-, -, hs'⟩ := execSetMinBuy_some hex
    subst hs'
    exact ⟨hesc, hlow, hhigh⟩
  | setMaxPerWallet v =>
    obtain ⟨-, hs'⟩ := execSetMaxPerWallet_some hex
    subst hs'
    exact ⟨hesc, hlow, hhigh⟩
  | receive v =>
    have hs' := execReceive_some hex
    subst hs'
    refine ⟨hesc, ?_, ?_⟩
    · intro hflag
      have := hlow hflag
      show s.totalEscrow + conSum s ≤ s.bank + v
      omega
    · intro hflag
      have := hhigh hflag
      show s.totalEscrow ≤ s.bank + v
      omega

theorem sinv_reachable [Fintype A] (s : PState A) (h : Reachable s) : SInv s := by
  obtain ⟨d, sc, mb, mw, ops, -, -, -, hs⟩ := h
  subst hs
  exact runOps_preserve (fun s s' op => sinv_step s s' op) ops _
    (sinv_init A d sc mb mw)

/-- C3: in every reachable state (any history of buys, refunds, escrow
withdrawals, proceeds withdrawals, endSale, plain incoming transfers, and
the remaining entry points) the held balance covers `totalEscrow`;
`withdrawProceeds` fails whenever the balance is not strictly above
`totalEscrow`, and on success sends exactly `balance - totalEscrow`,
leaving the balance equal to the escrow reserve. -/
theorem escrow_reserve_never_touched [Fintype A] (s : PState A)
    (h : Reachable s) :
    s.totalEscrow ≤ s.bank ∧
    (s.bank ≤ s.totalEscrow → execWithdrawProceeds s = none) ∧
    (∀ s', execWithdrawProceeds s = some s' →
      s'.bank = s.bank - (s.bank - s.totalEscrow) ∧
      s'.bank = s.totalEscrow ∧ s'.totalEscrow = s.totalEscrow) := by
  have hinv := sinv_reachable s h
  obtain ⟨hesc, hlow, hhigh⟩ := hinv
  have hEbank : s.totalEscrow ≤ s.bank := by
    cases hsc : s.softCapReached
    · have hl := hlow hsc
      omega
    · exact hhigh hsc
  refine ⟨hEbank, ?_, ?_⟩
  · intro hle
    unfold execWithdrawProceeds
    split_ifs <;> rfl
  · intro s' hs'
    obtain ⟨-, -, hlt, he⟩ := execWithdrawProceeds_some hs'
    subst he
    refine ⟨rfl, ?_, rfl⟩
    show s.bank - (s.bank - s.totalEscrow) = s.totalEscrow
    omega

/-- Witness for `escrow_reserve_never_touched`: a sale that reached its soft
cap of 10 and ended; the balance 10 covers the empty escrow, and
`withdrawProceeds` leaves exactly the escrow reserve behind. -/
theorem escrow_reserve_never_touched_witness :
    (runOps (mkInit (Fin 1) 0 10 1 1000)
      [.addPhase 0 1 100 1 10, .buy 0 5 10, .endSale]).totalEscrow ≤
      (runOps (mkInit (Fin 1) 0 10 1 1000)
        [.addPhase 0 1 100 1 10, .buy 0 5 10, .endSale]).bank ∧
    ((execWithdrawProceeds (runOps (mkInit (Fin 1) 0 10 1 1000)
        [.addPhase 0 1 100 1 10, .buy 0 5 10, .endSale])).getD
      (runOps (mkInit (Fin 1) 0 10 1 1000)
        [.addPhase 0 1 100 1 10, .buy 0 5 10, .endSale])).bank =
      (runOps (mkInit (Fin 1) 0 10 1 1000)
        [.addPhase 0 1 100 1 10, .buy 0 5 10, .endSale]).totalEscrow := by
  have h := escrow_reserve_never_touched
    (runOps (mkInit (Fin 1) 0 10 1 1000)
      [.addPhase 0 1 100 1 10, .buy 0 5 10, .endSale])
    ⟨0, 10, 1, 1000, [.addPhase 0 1 100 1 10, .buy 0 5 10, .endSale],
      by omega, by omega, by omega, rfl⟩
  exact ⟨h.1, (h.2.2 _ rfl).2.1⟩

theorem tokeninv_init (A : Type) [DecidableEq A] [Fintype A] (d sc mb mw : Nat) :
    TokenInv (mkInit A d sc mb mw) := by
  show (0 : Nat) = 0 + penSum (mkInit A d sc mb mw) + 0
  have : penSum (mkInit A d sc mb mw) = 0 := by
    show finSum (fun _ : A => 0) = 0
    unfold finSum
    simp
  omega

theorem tokeninv_step [Fintype A] (s s' : PState A) (op : POp A)
    (hinv : TokenInv s) (hex : execOp s op = some s') : TokenInv s' := by
  unfold TokenInv at hinv ⊢
  cases op with
  | buy sender now v =>
    obtain ⟨-, -, -, i, -, -, -, hs'⟩ := execBuy_some_inv hex
    subst hs'
    obtain ⟨-, h2, -, h4, -, -, -, -, -, -, -, h12, h13, -⟩ :=
      buyResult_fields s sender i v
    have hupd := finSum_update s.pendingTokens sender
      (s.pendingTokens sender + buyTokensAllocated s i v)
    rw [h2, h12, h13]
    unfold penSum at hinv ⊢
    rw [h4]
    omega
  | withdrawPayments sender =>
    obtain ⟨-, -, hs'⟩ := execWithdrawPayments_some hex
    subst hs'
    exact hinv
  | claim sender =>
    obtain ⟨-, -, -, -, hs'⟩ := execClaim_some hex
    subst hs'
    have hple : s.pendingTokens sender ≤ finSum s.pendingTokens :=
      le_finSum s.pendingTokens sender
    have hupd := finSum_update s.pendingTokens sender 0
    unfold penSum at hinv ⊢
    show s.totalTokensSold = s.claimedTokens + s.pendingTokens sender +
      finSum (Function.update s.pendingTokens sender 0) + s.forfeitedTokens
    omega
  | requestRefund sender =>
    obtain ⟨-, -, -, -, hs'⟩ := execRequestRefund_some hex
    subst hs'
    have hple : s.pendingTokens sender ≤ finSum s.pendingTokens :=
      le_finSum s.pendingTokens sender
    have hupd := finSum_update s.pendingTokens sender 0
    unfold penSum at hinv ⊢
    show s.totalTokensSold = s.claimedTokens +
      finSum (Function.update s.pendingTokens sender 0) +
      (s.forfeitedTokens + s.pendingTokens sender)
    omega
  | withdrawProceeds =>
    obtain ⟨-, -, -, hs'⟩ := execWithdrawProceeds_some hex
    subst hs'
    exact hinv
  | endSale =>
    obtain ⟨-, hs'⟩ := execEndSale_some hex
    subst hs'
    exact hinv
  | addPhase now p sup st en =>
    obtain ⟨-, -, -, -, -, hs'⟩ := execAddPhase_some hex
    subst hs'
    exact hinv
  | updatePhase now i ns ne =>
    obtain ⟨-, -, -, -, hs'⟩ := execUpdatePhase_some hex
    subst hs'
    exact hinv
  | pausePhase now i =>
    obtain ⟨-, hs'⟩ := execPausePhase_some hex
    subst hs'
    exact hinv
  | pause =>
    have hs' := execPause_some hex
    subst hs'
    exact hinv
  | unpause =>
    have hs' := execUnpause_some hex
    subst hs'
    exact hinv
  | setSoftCap v =>
    obtain ⟨-, -, hs'⟩ := execSetSoftCap_some hex
    subst hs'
    exact hinv
  | setMinBuy v =>
    obtain ⟨-, -, hs'⟩ := execSetMinBuy_some hex
    subst hs'
    exact hinv
  | setMaxPerWallet v =>
    obtain ⟨-, hs'⟩ := execSetMaxPerWallet_some hex
    subst hs'
    exact hinv
  | receive v =>
    have hs' := execReceive_some hex
    subst hs'
    exact hinv

/-- Counterexample to C4 as stated: after phase setup, a buy of 10 token
units, `endSale` (soft cap missed) and a refund, `totalTokensSold` is still
10 while the claimed total and every `pendingTokens` entry are 0 — the
refund forfeits the allocation, so tokens sold ≠ claimed + pending. -/
theorem tokens_sold_not_claimed_plus_pending_cex :
    (runOps (mkInit (Fin 1) 0 1000000 1 1000000000)
      [.addPhase 0 1 100 1 10, .buy 0 5 10, .endSale,
        .requestRefund 0]).totalTokensSold = 10 ∧
    (runOps (mkInit (Fin 1) 0 1000000 1 1000000000)
      [.addPhase 0 1 100 1 10, .buy 0 5 10, .endSale,
        .requestRefund 0]).claimedTokens +
      penSum (runOps (mkInit (Fin 1) 0 1000000 1 1000000000)
        [.addPhase 0 1 100 1 10, .buy 0 5 10, .endSale,
          .requestRefund 0]) = 0 := by
  refine ⟨?_, ?_⟩ <;> decide

/-- C4 (amended): in every reachable state `totalTokensSold` equals the sum
of every allocation ever made, which splits as claimed + still pending +
forfeited by refunds; the original claimed/pending split is preserved by
every operation except `requestRefund`, which zeroes `pendingTokens` without
reducing `totalTokensSold`. -/
theorem tokens_sold_conservation [Fintype A] (s : PState A) (h : Reachable s) :
    s.totalTokensSold = s.claimedTokens + penSum s + s.forfeitedTokens := by
  obtain ⟨d, sc, mb, mw, ops, -, -, -, hs⟩ := h
  subst hs
  exact runOps_preserve (fun s s' op => tokeninv_step s s' op) ops _
    (tokeninv_init A d sc mb mw)

/-- Witness for `tokens_sold_conservation` on the counterexample history:
the conservation identity holds there with 10 forfeited token units. -/
theorem tokens_sold_conservation_witness :
    (runOps (mkInit (Fin 1) 0 1000000 1 1000000000)
      [.addPhase 0 1 100 1 10, .buy 0 5 10, .endSale,
        .requestRefund 0]).totalTokensSold =
    (runOps (mkInit (Fin 1) 0 1000000 1 1000000000)
      [.addPhase 0 1 100 1 10, .buy 0 5 10, .endSale,
        .requestRefund 0]).claimedTokens +
      penSum (runOps (mkInit (Fin 1) 0 1000000 1 1000000000)
        [.addPhase 0 1 100 1 10, .buy 0 5 10, .endSale, .requestRefund 0]) +
    (runOps (mkInit (Fin 1) 0 1000000 1 1000000000)
      [.addPhase 0 1 100 1 10, .buy 0 5 10, .endSale,
        .requestRefund 0]).forfeitedTokens :=
  tokens_sold_conservation _
    ⟨0, 1000000, 1, 1000000000,
      [.addPhase 0 1 100 1 10, .buy 0 5 10, .endSale, .requestRefund 0],
      by omega, by omega, by omega, rfl⟩

theorem getD_eq_getElem {α : Type} (l : List α) (i : Nat) (d : α)
    (h : i < l.length) : l.getD i d = l[i] := by
  rw [List.getD_eq_getElem?_getD, List.getElem?_eq_getElem h]
  rfl

theorem soldle_step (s s' : PState A) (op : POp A)
    (hinv : SoldLeSupply s) (hex : execOp s op = some s') : SoldLeSupply s' := by
  unfold SoldLeSupply at hinv ⊢
  cases op with
  | buy sender now v =>
    obtain ⟨-, -, -, i, hcpi, -, -, hs'⟩ := execBuy_some_inv hex
    subst hs'
    obtain ⟨-, -, -, -, h5, -⟩ := buyResult_fields s sender i v
    rw [h5]
    intro p hp
    rcases List.mem_or_eq_of_mem_set hp with hmem | rfl
    · exact hinv p hmem
    · obtain ⟨hlt, hact⟩ := currentPhaseIndex_spec s.phases now i hcpi
      have hsold : (s.phases.getD i default).sold <
          (s.phases.getD i default).supply := phaseActiveB_sold_lt hact
      have halloc : buyTokensAllocated s i v ≤
          (s.phases.getD i default).supply - (s.phases.getD i default).sold :=
        Nat.min_le_right _ _
      show (s.phases.getD i default).sold + buyTokensAllocated s i v ≤
        (s.phases.getD i default).supply
      omega
  | withdrawPayments sender =>
    obtain ⟨-, -, hs'⟩ := execWithdrawPayments_some hex
    subst hs'
    exact hinv
  | claim sender =>
    obtain ⟨-, -, -, -, hs'⟩ := execClaim_some hex
    subst hs'
    exact hinv
  | requestRefund sender =>
    obtain ⟨-, -, -, -, hs'⟩ := execRequestRefund_some hex
    subst hs'
    exact hinv
  | withdrawProceeds =>
    obtain ⟨-, -, -, hs'⟩ := execWithdrawProceeds_some hex
    subst hs'
    exact hinv
  | endSale =>
    obtain ⟨-, hs'⟩ := execEndSale_some hex
    subst hs'
    exact hinv
  | addPhase now p sup st en =>
    obtain ⟨-, -, -, -, -, hs'⟩ := execAddPhase_some hex
    subst hs'
    intro q hq
    rcases List.mem_append.mp hq with hmem | hmem
    · exact hinv q hmem
    · rcases List.mem_singleton.mp hmem with rfl
      exact Nat.zero_le _
  | updatePhase now i ns ne =>
    obtain ⟨hlen, -, -, -, hs'⟩ := execUpdatePhase_some hex
    subst hs'
    intro q hq
    rcases List.mem_or_eq_of_mem_set hq with hmem | rfl
    · exact hinv q hmem
    · show (s.phases.getD i default).sold ≤ (s.phases.getD i default).supply
      rw [getD_eq_getElem _ _ _ hlen]
      exact hinv _ (List.getElem_mem hlen)
  | pausePhase now i =>
    obtain ⟨hlen, hs'⟩ := execPausePhase_some hex
    subst hs'
    intro q hq
    rcases List.mem_or_eq_of_mem_set hq with hmem | rfl
    · exact hinv q hmem
    · show (s.phases.getD i default).sold ≤ (s.phases.getD i default).supply
      rw [getD_eq_getElem _ _ _ hlen]
      exact hinv _ (List.getElem_mem hlen)
  | pause =>
    have hs' := execPause_some hex
    subst hs'
    exact hinv
  | unpause =>
    have hs' := execUnpause_some hex
    subst hs'
    exact hinv
  | setSoftCap v =>
    obtain ⟨-, -, hs'⟩ := execSetSoftCap_some hex
    subst hs'
    exact hinv
  | setMinBuy v =>
    obtain ⟨-, -, hs'⟩ := execSetMinBuy_some hex
    subst hs'
    exact hinv
  | setMaxPerWallet v =>
    obtain ⟨-, hs'⟩ := execSetMaxPerWallet_some hex
    subst hs'
    exact hinv
  | receive v =>
    have hs' := execReceive_some hex
    subst hs'
    exact hinv

theorem pairwise_set_window (l : List Phase) (i : Nat) (x : Phase)
    (hi : i < l.length)
    (hstart : x.start = l[i].start) (hend : x.end_ = l[i].end_)
    (hp : l.Pairwise PhaseSep) : (l.set i x).Pairwise PhaseSep := by
  rw [List.pairwise_iff_getElem] at hp ⊢
  intro a b ha hb hab
  rw [List.length_set] at ha hb
  rw [List.getElem_set, List.getElem_set]
  by_cases hia : i = a
  · subst hia
    rw [if_pos rfl, if_neg (by omega)]
    show x.end_ ≤ l[b].start ∨ l[b].end_ ≤ x.start
    rw [hstart, hend]
    exact hp i b ha hb hab
  · rw [if_neg hia]
    by_cases hib : i = b
    · subst hib
      rw [if_pos rfl]
      show l[a].end_ ≤ x.start ∨ x.end_ ≤ l[a].start
      rw [hstart, hend]
      exact hp a i ha hb hab
    · rw [if_neg hib]
      exact hp a b ha hb hab

theorem phaseswf_step (s s' : PState A) (op : POp A)
    (hq : op.isPausePhase = false)
    (hinv : PhasesWF s) (hex : execOp s op = some s') : PhasesWF s' := by
  obtain ⟨hwin, hpair⟩ := hinv
  cases op with
  | buy sender now v =>
    obtain ⟨-, -, -, i, hcpi, -, -, hs'⟩ := execBuy_some_inv hex
    subst hs'
    obtain ⟨-, -, -, -, h5, -⟩ := buyResult_fields s sender i v
    obtain ⟨hlt, -⟩ := currentPhaseIndex_spec s.phases now i hcpi
    constructor
    · show ∀ p ∈ (buyResult s sender i v).phases, p.start < p.end_
      rw [h5]
      intro p hp
      rcases List.mem_or_eq_of_mem_set hp with hmem | rfl
      · exact hwin p hmem
      · show (s.phases.getD i default).start < (s.phases.getD i default).end_
        rw [getD_eq_getElem _ _ _ hlt]
        exact hwin _ (List.getElem_mem hlt)
    · show (buyResult s sender i v).phases.Pairwise PhaseSep
      rw [h5]
      exact pairwise_set_window s.phases i _ hlt
        (by rw [getD_eq_getElem _ _ _ hlt])
        (by rw [getD_eq_getElem _ _ _ hlt]) hpair
  | withdrawPayments sender =>
    obtain ⟨-, -, hs'⟩ := execWithdrawPayments_some hex
    subst hs'
    exact ⟨hwin, hpair⟩
  | claim sender =>
    obtain ⟨-, -, -, -, hs'⟩ := execClaim_some hex
    subst hs'
    exact ⟨hwin, hpair⟩
  | requestRefund sender =>
    obtain ⟨-, -, -, -, hs'⟩ := execRequestRefund_some hex
    subst hs'
    exact ⟨hwin, hpair⟩
  | withdrawProceeds =>
    obtain ⟨-, -, -, hs'⟩ := execWithdrawProceeds_some hex
    subst hs'
    exact ⟨hwin, hpair⟩
  | endSale =>
    obtain ⟨-, hs'⟩ := execEndSale_some hex
    subst hs'
    exact ⟨hwin, hpair⟩
  | addPhase now p sup st en =>
    obtain ⟨-, -, hsten, -, hsep, hs'⟩ := execAddPhase_some hex
    subst hs'
    constructor
    · intro q hq'
      rcases List.mem_append.mp hq' with hmem | hmem
      · exact hwin q hmem
      · rcases List.mem_singleton.mp hmem with rfl
        exact hsten
    · rw [List.pairwise_append]
      refine ⟨hpair, List.pairwise_singleton _ _, ?_⟩
      intro a ha b hb
      rcases List.mem_singleton.mp hb with rfl
      exact hsep a ha
  | updatePhase now i ns ne =>
    obtain ⟨hlen, hne, -, hsep, hs'⟩ := execUpdatePhase_some hex
    subst hs'
    constructor
    · intro q hq'
      rcases List.mem_or_eq_of_mem_set hq' with hmem | rfl
      · exact hwin q hmem
      · exact hne
    · show (s.phases.set i _).Pairwise PhaseSep
      rw [List.pairwise_iff_getElem] at hpair ⊢
      intro a b ha hb hab
      rw [List.length_set] at ha hb
      rw [List.getElem_set, List.getElem_set]
      by_cases hia : i = a
      · subst hia
        rw [if_pos rfl, if_neg (by omega)]
        show ne ≤ s.phases[b].start ∨ s.phases[b].end_ ≤ ns
        have := hsep b hb (by omega)
        rw [getD_eq_getElem _ _ _ hb] at this
        omega
      · rw [if_neg hia]
        by_cases hib : i = b
        · subst hib
          rw [if_pos rfl]
          show s.phases[a].end_ ≤ ns ∨ ne ≤ s.phases[a].start
          have := hsep a ha (by omega)
          rw [getD_eq_getElem _ _ _ ha] at this
          omega
        · rw [if_neg hib]
          exact hpair a b ha hb hab
  | pausePhase now i =>
    exact absurd hq (by simp [POp.isPausePhase])
  | pause =>
    have hs' := execPause_some hex
    subst hs'
    exact ⟨hwin, hpair⟩
  | unpause =>
    have hs' := execUnpause_some hex
    subst hs'
    exact ⟨hwin, hpair⟩
  | setSoftCap v =>
    obtain ⟨-, -, hs'⟩ := execSetSoftCap_some hex
    subst hs'
    exact ⟨hwin, hpair⟩
  | setMinBuy v =>
    obtain ⟨-, -, hs'⟩ := execSetMinBuy_some hex
    subst hs'
    exact ⟨hwin, hpair⟩
  | setMaxPerWallet v =>
    obtain ⟨-, hs'⟩ := execSetMaxPerWallet_some hex
    subst hs'
    exact ⟨hwin, hpair⟩
  | receive v =>
    have hs' := execReceive_some hex
    subst hs'
    exact ⟨hwin, hpair⟩

/-- C5 (amended): in every reachable state every phase satisfies
`sold ≤ supply`; `addPhase` establishes, and `buy` and `updatePhase`
preserve, nonempty windows (`start < end`) and pairwise-disjoint windows in
the sense of the overlap check (`p.end ≤ q.start ∨ q.end ≤ p.start`) — but
`pausePhase` overwrites a phase end with the current time, which can produce
`end < start` on a not-yet-started phase (see the counterexample) or
re-extend an already-ended phase into a later one, so those two window
invariants only hold on histories without `pausePhase`. -/
theorem phase_window_invariants (s : PState A) :
    (Reachable s → ∀ p ∈ s.phases, p.sold ≤ p.supply) ∧
    (ReachableNoPausePhase s →
      (∀ p ∈ s.phases, p.start < p.end_) ∧ s.phases.Pairwise PhaseSep) := by
  constructor
  · intro h
    obtain ⟨d, sc, mb, mw, ops, -, -, -, hs⟩ := h
    subst hs
    refine runOps_preserve (fun s s' op => soldle_step s s' op) ops _ ?_
    intro p hp
    exact absurd hp (List.not_mem_nil p)
  · intro h
    obtain ⟨d, sc, mb, mw, ops, -, -, -, hops, hs⟩ := h
    subst hs
    refine runOps_preserve_mem
      (fun s s' op hq => phaseswf_step s s' op hq) ops _ hops ?_
    exact ⟨fun p hp => absurd hp (List.not_mem_nil p), List.Pairwise.nil⟩

/-- Witness for `phase_window_invariants` on a one-phase history without
`pausePhase`. -/
theorem phase_window_invariants_witness :
    ((runOps (mkInit (Fin 1) 0 10 1 1000)
      [.addPhase 0 1 10 5 10]).phases.getD 0 default).sold ≤
      ((runOps (mkInit (Fin 1) 0 10 1 1000)
        [.addPhase 0 1 10 5 10]).phases.getD 0 default).supply ∧
    ((runOps (mkInit (Fin 1) 0 10 1 1000)
      [.addPhase 0 1 10 5 10]).phases.getD 0 default).start <
      ((runOps (mkInit (Fin 1) 0 10 1 1000)
        [.addPhase 0 1 10 5 10]).phases.getD 0 default).end_ :=
  ⟨(phase_window_invariants (runOps (mkInit (Fin 1) 0 10 1 1000)
        [.addPhase 0 1 10 5 10])).1
      ⟨0, 10, 1, 1000, [.addPhase 0 1 10 5 10], by omega, by omega, by omega,
        rfl⟩ _ (by decide),
   ((phase_window_invariants (runOps (mkInit (Fin 1) 0 10 1 1000)
        [.addPhase 0 1 10 5 10])).2
      ⟨0, 10, 1, 1000, [.addPhase 0 1 10 5 10], by omega, by omega, by omega,
        by decide, rfl⟩).1 _ (by decide)⟩

/-- Counterexample to C5 as stated: `pausePhase` at time 1 on a phase with
window [5, 10] is reachable and leaves the phase with `end = 1 < 5 = start`,
violating the claimed `windowStart < windowEnd` invariant. -/
theorem phase_window_violated_cex :
    (runOps (mkInit (Fin 1) 0 10 1 1000)
      [.addPhase 0 1 10 5 10, .pausePhase 1 0]).phases =
      [⟨1, 10, 0, 5, 1⟩] ∧
    ¬ (((runOps (mkInit (Fin 1) 0 10 1 1000)
      [.addPhase 0 1 10 5 10, .pausePhase 1 0]).phases.getD 0 default).start <
      ((runOps (mkInit (Fin 1) 0 10 1 1000)
        [.addPhase 0 1 10 5 10, .pausePhase 1 0]).phases.getD 0 default).end_) := by
  refine ⟨?_, ?_⟩ <;> decide

theorem capinv_step (s s' : PState A) (op : POp A)
    (hq : op.isSetMaxPerWallet = false)
    (hinv : CapInv s) (hex : execOp s op = some s') : CapInv s' := by
  unfold CapInv at hinv ⊢
  cases op with
  | buy sender now v =>
    obtain ⟨-, -, -, i, -, -, hcap, hs'⟩ := execBuy_some_inv hex
    subst hs'
    obtain ⟨-, -, h3, -⟩ := buyResult_fields s sender i v
    obtain ⟨-, -, -, -, -, -, -, -, -, -, -, -, -, -, -, h16, -, -⟩ :=
      buyResult_fields s sender i v
    intro a
    rw [h3, h16]
    by_cases ha : a = sender
    · subst ha
      rw [Function.update_same]
      exact hcap
    · rw [Function.update_noteq ha]
      exact hinv a
  | withdrawPayments sender =>
    obtain ⟨-, -, hs'⟩ := execWithdrawPayments_some hex
    subst hs'
    exact hinv
  | claim sender =>
    obtain ⟨-, -, -, -, hs'⟩ := execClaim_some hex
    subst hs'
    exact hinv
  | requestRefund sender =>
    obtain ⟨-, -, -, -, hs'⟩ := execRequestRefund_some hex
    subst hs'
    intro a
    show Function.update s.contributionsWei sender 0 a ≤ s.maxPerWallet
    by_cases ha : a = sender
    · subst ha
      rw [Function.update_same]
      exact Nat.zero_le _
    · rw [Function.update_noteq ha]
      exact hinv a
  | withdrawProceeds =>
    obtain ⟨-, -, -, hs'⟩ := execWithdrawProceeds_some hex
    subst hs'
    exact hinv
  | endSale =>
    obtain ⟨-, hs'⟩ := execEndSale_some hex
    subst hs'
    exact hinv
  | addPhase now p sup st en =>
    obtain ⟨-, -, -, -, -, hs'⟩ := execAddPhase_some hex
    subst hs'
    exact hinv
  | updatePhase now i ns ne =>
    obtain ⟨-, -, -, -, hs'⟩ := execUpdatePhase_some hex
    subst hs'
    exact hinv
  | pausePhase now i =>
    obtain ⟨-, hs'⟩ := execPausePhase_some hex
    subst hs'
    exact hinv
  | pause =>
    have hs' := execPause_some hex
    subst hs'
    exact hinv
  | unpause =>
    have hs' := execUnpause_some hex
    subst hs'
    exact hinv
  | setSoftCap v =>
    obtain ⟨-, -, hs'⟩ := execSetSoftCap_some hex
    subst hs'
    exact hinv
  | setMinBuy v =>
    obtain ⟨-, -, hs'⟩ := execSetMinBuy_some hex
    subst hs'
    exact hinv
  | setMaxPerWallet v =>
    exact absurd hq (by simp [POp.isSetMaxPerWallet])
  | receive v =>
    have hs' := execReceive_some hex
    subst hs'
    exact hinv

/-- C7 (amended): `contributedAmount ≤ maxPerWallet` holds for every account
in every state reachable without `setMaxPerWallet`: `buy` enforces it and
`requestRefund` zeroes the contribution.  The setter itself, however, is
only restricted by `newMaxPerWallet ≥ minBuy` — not by the thresholds
already crossed — so lowering it can strand an existing contribution above
the cap (see the counterexample). -/
theorem contribution_within_cap (s : PState A) (h : ReachableNoSetMax s) :
    ∀ a : A, s.contributionsWei a ≤ s.maxPerWallet := by
  obtain ⟨d, sc, mb, mw, ops, -, -, -, hops, hs⟩ := h
  subst hs
  refine runOps_preserve_mem
    (fun s s' op hq => capinv_step s s' op hq) ops _ hops ?_
  intro a
  exact Nat.zero_le _

/-- Witness for `contribution_within_cap`: after a buy of 100 with cap 100
the contribution equals the cap. -/
theorem contribution_within_cap_witness :
    (runOps (mkInit (Fin 1) 0 1000000 1 100)
      [.addPhase 0 1 1000 1 10, .buy 0 5 100]).contributionsWei 0 ≤
    (runOps (mkInit (Fin 1) 0 1000000 1 100)
      [.addPhase 0 1 1000 1 10, .buy 0 5 100]).maxPerWallet :=
  contribution_within_cap
    (runOps (mkInit (Fin 1) 0 1000000 1 100)
      [.addPhase 0 1 1000 1 10, .buy 0 5 100])
    ⟨0, 1000000, 1, 100, [.addPhase 0 1 1000 1 10, .buy 0 5 100],
      by omega, by omega, by omega, by decide, rfl⟩ 0

/-- Counterexample to C7 as stated: contribute 100 under cap 100, then the
owner lowers `maxPerWallet` to 1 (allowed: the only check is `≥ minBuy`);
the recorded contribution 100 now exceeds the cap 1 in a reachable state. -/
theorem contribution_above_cap_cex :
    (runOps (mkInit (Fin 1) 0 1000000 1 100)
      [.addPhase 0 1 1000 1 10, .buy 0 5 100, .setMaxPerWallet 1]).maxPerWallet <
    (runOps (mkInit (Fin 1) 0 1000000 1 100)
      [.addPhase 0 1 1000 1 10, .buy 0 5 100,
        .setMaxPerWallet 1]).contributionsWei 0 := by
  decide

/-- C8: for every schedule with positive duration and cliff ≤ duration,
`vestedAmount` follows the piecewise definition (0 before the cliff, the
remainder-preserving interpolation inside the window, `totalAmount` at or
after maturity), is non-decreasing in time, never exceeds `totalAmount`,
and equals `totalAmount` exactly at `start + duration` with no rounding
loss. -/
theorem vested_amount_monotone_bounded_exact (sch : VSchedule)
    (hdur : 0 < sch.duration) (hcl : sch.cliff ≤ sch.duration) :
    (∀ t, t < sch.start + sch.cliff → vestedAmount sch t = 0) ∧
    (∀ t, sch.start + sch.cliff ≤ t → t < sch.start + sch.duration →
      vestedAmount sch t =
        sch.totalAmount / sch.duration * (t - sch.start) +
          sch.totalAmount % sch.duration * (t - sch.start) / sch.duration) ∧
    (∀ t, sch.start + sch.duration ≤ t → vestedAmount sch t = sch.totalAmount) ∧
    (∀ t1 t2, t1 ≤ t2 → vestedAmount sch t1 ≤ vestedAmount sch t2) ∧
    (∀ t, vestedAmount sch t ≤ sch.totalAmount) ∧
    vestedAmount sch (sch.start + sch.duration) = sch.totalAmount := by
  refine ⟨?_, ?_, ?_, ?_, ?_, ?_⟩
  · intro t ht
    unfold vestedAmount
    rw [if_pos ht]
  · intro t h1 h2
    unfold vestedAmount
    rw [if_neg (by omega), if_neg (by omega)]
  · intro t ht
    unfold vestedAmount
    rw [if_neg (by omega), if_pos ht]
  · intro t1 t2 h
    exact vestedAmount_mono sch hdur h
  · intro t
    exact vestedAmount_le sch t hdur
  · exact vestedAmount_at_maturity sch hcl

/-- Witness for `vested_amount_monotone_bounded_exact` on the documentation
scenario (total 10000, duration 100, cliff 10): 0 at time 9, exactly 5000 at
time 50, monotone between 50 and 80, and exactly 10000 at maturity. -/
theorem vested_amount_monotone_bounded_exact_witness :
    vestedAmount ⟨10000, 0, 0, 100, 10, true, false⟩ 9 = 0 ∧
    vestedAmount ⟨10000, 0, 0, 100, 10, true, false⟩ 50 ≤
      vestedAmount ⟨10000, 0, 0, 100, 10, true, false⟩ 80 ∧
    vestedAmount ⟨10000, 0, 0, 100, 10, true, false⟩ 123 ≤ 10000 ∧
    vestedAmount ⟨10000, 0, 0, 100, 10, true, false⟩ (0 + 100) = 10000 :=
  ⟨(vested_amount_monotone_bounded_exact ⟨10000, 0, 0, 100, 10, true, false⟩
      (by decide) (by decide)).1 9 (by decide),
   (vested_amount_monotone_bounded_exact ⟨10000, 0, 0, 100, 10, true, false⟩
      (by decide) (by decide)).2.2.2.1 50 80 (by decide),
   (vested_amount_monotone_bounded_exact ⟨10000, 0, 0, 100, 10, true, false⟩
      (by decide) (by decide)).2.2.2.2.1 123,
   (vested_amount_monotone_bounded_exact ⟨10000, 0, 0, 100, 10, true, false⟩
      (by decide) (by decide)).2.2.2.2.2⟩

theorem execCreateVesting_some {s s' : VState A} {t : Nat} {b : A}
    {amt st dur cl : Nat} {rev : Bool}
    (h : execCreateVesting s t b amt st dur cl rev = some s') :
    s.now ≤ t ∧ s.paused = false ∧ amt ≠ 0 ∧ dur ≠ 0 ∧ cl ≤ dur ∧ t ≤ st ∧
    s.totalCommitted + amt ≤ s.balance ∧
    s' = { s with
      now := t
      schedules := Function.update s.schedules b
        (s.schedules b ++ [⟨amt, 0, st, dur, cl, rev, false⟩])
      totalVestedAmount :=
        Function.update s.totalVestedAmount b (s.totalVestedAmount b + amt)
      totalCommitted := s.totalCommitted + amt
      totalVestingSchedules := s.totalVestingSchedules + 1 } := by
  unfold execCreateVesting at h
  split at h
  · exact Option.noConfusion h
  rename_i h1
  split at h
  · exact Option.noConfusion h
  rename_i h2
  split at h
  · exact Option.noConfusion h
  rename_i h3
  split at h
  · exact Option.noConfusion h
  rename_i h4
  split at h
  · exact Option.noConfusion h
  rename_i h5
  split at h
  · exact Option.noConfusion h
  rename_i h6
  split at h
  · exact Option.noConfusion h
  rename_i h7
  exact ⟨by omega, by simpa using h2, h3, h4, by omega, by omega, by omega,
    ((Option.some.injEq _ _).mp h).symm⟩

theorem execReleaseSchedule_some {s s' : VState A} {t : Nat} {b : A} {i : Nat}
    (h : execReleaseSchedule s t b i = some s') :
    s.now ≤ t ∧ s.paused = false ∧ i < (s.schedules b).length ∧
    ((s.schedules b).getD i default).revoked = false ∧
    ((s.schedules b).getD i default).released <
      vestedAmount ((s.schedules b).getD i default) t ∧
    vestedAmount ((s.schedules b).getD i default) t -
      ((s.schedules b).getD i default).released ≤ s.balance ∧
    s' = { s with
      now := t
      schedules := Function.update s.schedules b
        ((s.schedules b).set i
          { (s.schedules b).getD i default with
            released := ((s.schedules b).getD i default).released +
              (vestedAmount ((s.schedules b).getD i default) t -
                ((s.schedules b).getD i default).released) })
      totalCommitted :=
        if vestedAmount ((s.schedules b).getD i default) t -
            ((s.schedules b).getD i default).released ≤ s.totalCommitted
        then s.totalCommitted -
          (vestedAmount ((s.schedules b).getD i default) t -
            ((s.schedules b).getD i default).released)
        else 0
      totalVestedAmount := Function.update s.totalVestedAmount b
        (if vestedAmount ((s.schedules b).getD i default) t -
            ((s.schedules b).getD i default).released ≤ s.totalVestedAmount b
         then s.totalVestedAmount b -
           (vestedAmount ((s.schedules b).getD i default) t -
             ((s.schedules b).getD i default).released)
         else 0)
      balance := s.balance -
        (vestedAmount ((s.schedules b).getD i default) t -
          ((s.schedules b).getD i default).released) } := by
  unfold execReleaseSchedule at h
  split at h
  · exact Option.noConfusion h
  rename_i h1
  split at h
  · exact Option.noConfusion h
  rename_i h2
  split at h
  · exact Option.noConfusion h
  rename_i h3
  dsimp only at h
  split at h
  · exact Option.noConfusion h
  rename_i h4
  split at h
  · exact Option.noConfusion h
  rename_i h5
  split at h
  · exact Option.noConfusion h
  rename_i h6
  exact ⟨by omega, by simpa using h2, by omega, by simpa using h4, by omega,
    by omega, ((Option.some.injEq _ _).mp h).symm⟩

theorem unvested_ite_eq (T v : Nat) : (if v < T then T - v else 0) = T - v := by
  split <;> omega

theorem execRevokeVesting_some {s s' : VState A} {t : Nat} {b : A} {i : Nat}
    (h : execRevokeVesting s t b i = some s') :
    s.now ≤ t ∧ i < (s.schedules b).length ∧
    ((s.schedules b).getD i default).revocable = true ∧
    ((s.schedules b).getD i default).revoked = false ∧
    (0 < ((s.schedules b).getD i default).totalAmount -
        vestedAmount ((s.schedules b).getD i default) t →
      ((s.schedules b).getD i default).totalAmount -
        vestedAmount ((s.schedules b).getD i default) t ≤ s.balance) ∧
    s' = { s with
      now := t
      schedules := Function.update s.schedules b
        ((s.schedules b).set i
          { (s.schedules b).getD i default with revoked := true })
      totalCommitted :=
        if ((s.schedules b).getD i default).totalAmount -
            vestedAmount ((s.schedules b).getD i default) t ≤ s.totalCommitted
        then s.totalCommitted -
          (((s.schedules b).getD i default).totalAmount -
            vestedAmount ((s.schedules b).getD i default) t)
        else 0
      totalVestedAmount := Function.update s.totalVestedAmount b
        (if ((s.schedules b).getD i default).totalAmount -
            vestedAmount ((s.schedules b).getD i default) t ≤
              s.totalVestedAmount b
         then s.totalVestedAmount b -
           (((s.schedules b).getD i default).totalAmount -
             vestedAmount ((s.schedules b).getD i default) t)
         else 0)
      balance := s.balance -
        (((s.schedules b).getD i default).totalAmount -
          vestedAmount ((s.schedules b).getD i default) t) } := by
  unfold execRevokeVesting at h
  split at h
  · exact Option.noConfusion h
  rename_i h1
  split at h
  · exact Option.noConfusion h
  rename_i h2
  dsimp only at h
  split at h
  · exact Option.noConfusion h
  rename_i h3
  split at h
  · exact Option.noConfusion h
  rename_i h4
  rw [unvested_ite_eq ((s.schedules b).getD i default).totalAmount
    (vestedAmount ((s.schedules b).getD i default) t)] at h
  split at h
  · exact Option.noConfusion h
  rename_i h5
  refine ⟨by omega, by omega, by simpa using h3, by simpa using h4, ?_,
    ((Option.some.injEq _ _).mp h).symm⟩
  intro hpos
  by_contra hgt
  exact h5 ⟨hpos, by omega⟩

theorem execEmergencyWithdraw_some {s s' : VState A} {amt : Nat}
    (h : execEmergencyWithdraw s amt = some s') :
    amt ≤ s.balance ∧ s' = { s with balance := s.balance - amt } := by
  unfold execEmergencyWithdraw at h
  split at h
  · exact Option.noConfusion h
  rename_i h1
  exact ⟨by omega, ((Option.some.injEq _ _).mp h).symm⟩

theorem execFund_some {s s' : VState A} {amt : Nat}
    (h : execFund s amt = some s') :
    s' = { s with balance := s.balance + amt } :=
  ((Option.some.injEq _ _).mp h).symm

theorem listCommitted_append (l : List VSchedule) (x : VSchedule) :
    listCommitted (l ++ [x]) = listCommitted l + schOutstanding x := by
  induction l with
  | nil => simp [listCommitted]
  | cons sch rest ih =>
    show schOutstanding sch + listCommitted (rest ++ [x]) =
      schOutstanding sch + listCommitted rest + schOutstanding x
    rw [ih]
    omega

theorem listCommitted_set (l : List VSchedule) (i : Nat) (x : VSchedule)
    (h : i < l.length) :
    listCommitted (l.set i x) + schOutstanding (l.getD i default) =
      listCommitted l + schOutstanding x := by
  induction l generalizing i with
  | nil => simp at h
  | cons sch rest ih =>
    cases i with
    | zero =>
      show schOutstanding x + listCommitted rest + schOutstanding sch =
        schOutstanding sch + listCommitted rest + schOutstanding x
      omega
    | succ j =>
      have hj : j < rest.length := by simpa using h
      have := ih j hj
      show schOutstanding sch + listCommitted (rest.set j x) +
        schOutstanding (rest.getD j default) =
        schOutstanding sch + listCommitted rest + schOutstanding x
      omega

theorem schOutstanding_le_listCommitted (l : List VSchedule) (i : Nat)
    (h : i < l.length) :
    schOutstanding (l.getD i default) ≤ listCommitted l := by
  induction l generalizing i with
  | nil => simp at h
  | cons sch rest ih =>
    cases i with
    | zero =>
      show schOutstanding sch ≤ schOutstanding sch + listCommitted rest
      omega
    | succ j =>
      have hj : j < rest.length := by simpa using h
      have := ih j hj
      show schOutstanding (rest.getD j default) ≤
        schOutstanding sch + listCommitted rest
      omega

theorem schedOK_mono {t1 t2 : Nat} (h : t1 ≤ t2) (sch : VSchedule)
    (hok : schedOK t1 sch) : schedOK t2 sch := by
  obtain ⟨hdur, hcl, hrel⟩ := hok
  exact ⟨hdur, hcl, fun hr =>
    le_trans (hrel hr) (vestedAmount_mono sch hdur h)⟩

theorem comp_update_fun {A B : Type} [DecidableEq A] (g : B → Nat) (f : A → B)
    (b : A) (x : B) :
    (fun a => g (Function.update f b x a)) =
      Function.update (fun a => g (f a)) b (g x) := by
  funext a
  by_cases h : a = b
  · subst h
    rw [Function.update_same, Function.update_same]
  · rw [Function.update_noteq h, Function.update_noteq h]

theorem releaseLoop_spec (t : Nat) :
    ∀ (l : List VSchedule) (c tv : Nat),
      (∀ sch ∈ l, schedOK t sch) →
      listCommitted l ≤ c → listCommitted l ≤ tv →
      (releaseLoop t l c tv).2.2.2 ≤ listCommitted l ∧
      listCommitted (releaseLoop t l c tv).1 + (releaseLoop t l c tv).2.2.2 =
        listCommitted l ∧
      (releaseLoop t l c tv).2.1 + (releaseLoop t l c tv).2.2.2 = c ∧
      (releaseLoop t l c tv).2.2.1 + (releaseLoop t l c tv).2.2.2 = tv ∧
      (∀ sch ∈ (releaseLoop t l c tv).1, schedOK t sch) := by
  intro l
  induction l with
  | nil =>
    intro c tv hok hc htv
    refine ⟨Nat.le_refl _, ?_, ?_, ?_, ?_⟩ <;>
      simp [releaseLoop, listCommitted]
  | cons sch rest ih =>
    intro c tv hok hc htv
    have hoksch : schedOK t sch := hok sch (List.mem_cons_self sch rest)
    have hokrest : ∀ q ∈ rest, schedOK t q :=
      fun q hq => hok q (List.mem_cons_of_mem sch hq)
    have hlc : listCommitted (sch :: rest) =
        schOutstanding sch + listCommitted rest := rfl
    by_cases hrev : sch.revoked
    · have hstep : releaseStep t sch = (sch, 0) := by
        unfold releaseStep
        rw [if_pos hrev]
      have hout : schOutstanding sch = 0 := by
        unfold schOutstanding
        rw [if_pos hrev]
      have hloop : releaseLoop t (sch :: rest) c tv =
          ((releaseLoop t rest c tv).1.cons sch,
            (releaseLoop t rest c tv).2.1, (releaseLoop t rest c tv).2.2.1,
            0 + (releaseLoop t rest c tv).2.2.2) := by
        show (let (sch', r) := releaseStep t sch
              let c1 := if r ≤ c then c - r else 0
              let tv1 := if r ≤ tv then tv - r else 0
              let (rest', c', tv', rs) := releaseLoop t rest c1 tv1
              (sch' :: rest', c', tv', r + rs)) = _
        rw [hstep]
        dsimp only
        rw [if_pos (Nat.zero_le c), if_pos (Nat.zero_le tv)]
        rw [Nat.sub_zero, Nat.sub_zero]
      obtain ⟨ih1, ih2, ih3, ih4, ih5⟩ := ih c tv hokrest (by omega) (by omega)
      rw [hloop]
      refine ⟨by dsimp only; omega, ?_, by dsimp only; omega,
        by dsimp only; omega, ?_⟩
      · show schOutstanding sch + listCommitted (releaseLoop t rest c tv).1 +
          (0 + (releaseLoop t rest c tv).2.2.2) = listCommitted (sch :: rest)
        omega
      · intro q hq
        rcases List.mem_cons.mp hq with rfl | hq'
        · exact hoksch
        · exact ih5 q hq'
    · have hrev' : sch.revoked = false := by
        cases hx : sch.revoked
        · rfl
        · exact absurd hx hrev
      by_cases hv : vestedAmount sch t ≤ sch.released
      · have hstep : releaseStep t sch = (sch, 0) := by
          unfold releaseStep
          rw [if_neg hrev, if_pos hv]
        have hloop : releaseLoop t (sch :: rest) c tv =
            ((releaseLoop t rest c tv).1.cons sch,
              (releaseLoop t rest c tv).2.1, (releaseLoop t rest c tv).2.2.1,
              0 + (releaseLoop t rest c tv).2.2.2) := by
          show (let (sch', r) := releaseStep t sch
                let c1 := if r ≤ c then c - r else 0
                let tv1 := if r ≤ tv then tv - r else 0
                let (rest', c', tv', rs) := releaseLoop t rest c1 tv1
                (sch' :: rest', c', tv', r + rs)) = _
          rw [hstep]
          dsimp only
          rw [if_pos (Nat.zero_le c), if_pos (Nat.zero_le tv)]
          rw [Nat.sub_zero, Nat.sub_zero]
        have hcrest : listCommitted rest ≤ c := by omega
        have htvrest : listCommitted rest ≤ tv := by omega
        obtain ⟨ih1, ih2, ih3, ih4, ih5⟩ := ih c tv hokrest hcrest htvrest
        rw [hloop]
        refine ⟨by dsimp only; omega, ?_, by dsimp only; omega,
          by dsimp only; omega, ?_⟩
        · show schOutstanding sch + listCommitted (releaseLoop t rest c tv).1 +
            (0 + (releaseLoop t rest c tv).2.2.2) = listCommitted (sch :: rest)
          omega
        · intro q hq
          rcases List.mem_cons.mp hq with rfl | hq'
          · exact hoksch
          · exact ih5 q hq'
      · have hvlt : sch.released < vestedAmount sch t := by omega
        have hstep : releaseStep t sch =
            (⟨sch.totalAmount, sch.released + (vestedAmount sch t - sch.released),
              sch.start, sch.duration, sch.cliff, sch.revocable, sch.revoked⟩,
             vestedAmount sch t - sch.released) := by
          unfold releaseStep
          rw [if_neg hrev, if_neg (by omega)]
        have hvle : vestedAmount sch t ≤ sch.totalAmount :=
          vestedAmount_le sch t hoksch.1
        have houtold : schOutstanding sch = sch.totalAmount - sch.released := by
          unfold schOutstanding
          rw [if_neg hrev]
        have hr_le : vestedAmount sch t - sch.released ≤ schOutstanding sch := by
          omega
        have hrc : vestedAmount sch t - sch.released ≤ c := by omega
        have hrtv : vestedAmount sch t - sch.released ≤ tv := by omega
        have hloop : releaseLoop t (sch :: rest) c tv =
            ((releaseLoop t rest (c - (vestedAmount sch t - sch.released))
                (tv - (vestedAmount sch t - sch.released))).1.cons
              ⟨sch.totalAmount, sch.released + (vestedAmount sch t - sch.released),
                sch.start, sch.duration, sch.cliff, sch.revocable, sch.revoked⟩,
              (releaseLoop t rest (c - (vestedAmount sch t - sch.released))
                (tv - (vestedAmount sch t - sch.released))).2.1,
              (releaseLoop t rest (c - (vestedAmount sch t - sch.released))
                (tv - (vestedAmount sch t - sch.released))).2.2.1,
              (vestedAmount sch t - sch.released) +
                (releaseLoop t rest (c - (vestedAmount sch t - sch.released))
                  (tv - (vestedAmount sch t - sch.released))).2.2.2) := by
          show (let (sch', r) := releaseStep t sch
                let c1 := if r ≤ c then c - r else 0
                let tv1 := if r ≤ tv then tv - r else 0
                let (rest', c', tv', rs) := releaseLoop t rest c1 tv1
                (sch' :: rest', c', tv', r + rs)) = _
          rw [hstep]
          dsimp only
          rw [if_pos hrc, if_pos hrtv]
        have houtnew : schOutstanding
            ⟨sch.totalAmount, sch.released + (vestedAmount sch t - sch.released),
              sch.start, sch.duration, sch.cliff, sch.revocable, sch.revoked⟩ =
            sch.totalAmount - vestedAmount sch t := by
          unfold schOutstanding
          dsimp only
          rw [if_neg hrev]
          omega
        have hveq : vestedAmount
            ⟨sch.totalAmount, sch.released + (vestedAmount sch t - sch.released),
              sch.start, sch.duration, sch.cliff, sch.revocable, sch.revoked⟩ t =
            vestedAmount sch t := rfl
        have hoknew : schedOK t
            ⟨sch.totalAmount, sch.released + (vestedAmount sch t - sch.released),
              sch.start, sch.duration, sch.cliff, sch.revocable, sch.revoked⟩ := by
          obtain ⟨hd, hcl, -⟩ := hoksch
          refine ⟨hd, hcl, fun _ => ?_⟩
          rw [hveq]
          dsimp only
          omega
        have hcrest : listCommitted rest ≤
            c - (vestedAmount sch t - sch.released) := by omega
        have htvrest : listCommitted rest ≤
            tv - (vestedAmount sch t - sch.released) := by omega
        obtain ⟨ih1, ih2, ih3, ih4, ih5⟩ :=
          ih (c - (vestedAmount sch t - sch.released))
            (tv - (vestedAmount sch t - sch.released)) hokrest hcrest htvrest
        rw [hloop]
        refine ⟨by dsimp only; omega, ?_, by dsimp only; omega,
          by dsimp only; omega, ?_⟩
        · show schOutstanding
              ⟨sch.totalAmount, sch.released + (vestedAmount sch t - sch.released),
                sch.start, sch.duration, sch.cliff, sch.revocable, sch.revoked⟩ +
              listCommitted (releaseLoop t rest
                (c - (vestedAmount sch t - sch.released))
                (tv - (vestedAmount sch t - sch.released))).1 +
              ((vestedAmount sch t - sch.released) +
                (releaseLoop t rest (c - (vestedAmount sch t - sch.released))
                  (tv - (vestedAmount sch t - sch.released))).2.2.2) =
            listCommitted (sch :: rest)
          rw [houtnew, hlc, houtold]
          omega
        · intro q hq
          rcases List.mem_cons.mp hq with rfl | hq'
          · exact hoknew
          · exact ih5 q hq'

theorem execRelease_some {s s' : VState A} {t : Nat} {b : A}
    (h : execRelease s t b = some s') :
    s.now ≤ t ∧ s.paused = false ∧
    (releaseLoop t (s.schedules b) s.totalCommitted
      (s.totalVestedAmount b)).2.2.2 ≠ 0 ∧
    (releaseLoop t (s.schedules b) s.totalCommitted
      (s.totalVestedAmount b)).2.2.2 ≤ s.balance ∧
    s' = { s with
      now := t
      schedules := Function.update s.schedules b
        (releaseLoop t (s.schedules b) s.totalCommitted (s.totalVestedAmount b)).1
      totalCommitted :=
        (releaseLoop t (s.schedules b) s.totalCommitted (s.totalVestedAmount b)).2.1
      totalVestedAmount := Function.update s.totalVestedAmount b
        (releaseLoop t (s.schedules b) s.totalCommitted
          (s.totalVestedAmount b)).2.2.1
      balance := s.balance -
        (releaseLoop t (s.schedules b) s.totalCommitted
          (s.totalVestedAmount b)).2.2.2 } := by
  unfold execRelease at h
  split at h
  · exact Option.noConfusion h
  rename_i h1
  split at h
  · exact Option.noConfusion h
  rename_i h2
  dsimp only at h
  split at h
  · exact Option.noConfusion h
  rename_i h3
  split at h
  · exact Option.noConfusion h
  rename_i h4
  exact ⟨by omega, by simpa using h2, h3, by omega,
    ((Option.some.injEq _ _).mp h).symm⟩

theorem finSum_listCommitted_update [Fintype A]
    (f : A → List VSchedule) (b : A) (l : List VSchedule) :
    finSum (fun a => listCommitted (Function.update f b l a)) +
      listCommitted (f b) =
      finSum (fun a => listCommitted (f a)) + listCommitted l := by
  rw [comp_update_fun listCommitted f b l]
  exact finSum_update _ b _

theorem getD_mem_of_lt {α : Type} [Inhabited α] (l : List α) (i : Nat)
    (h : i < l.length) : l.getD i default ∈ l := by
  rw [getD_eq_getElem _ _ _ h]
  exact List.getElem_mem h

theorem vinv_init (A : Type) [DecidableEq A] [Fintype A] :
    (VInvCore (vInit A) ∧ VBalInv (vInit A)) := by
  refine ⟨⟨?_, ?_, ?_⟩, ?_⟩
  · intro a sch hsch
    exact absurd hsch (List.not_mem_nil sch)
  · show finSum (fun _ : A => listCommitted []) ≤ 0
    unfold finSum listCommitted
    simp
  · intro a
    exact Nat.le_refl 0
  · exact Nat.le_refl 0

theorem vinv_step [Fintype A] (s s' : VState A) (op : VOp A)
    (hq : op.isEmergencyWithdraw = false)
    (hinv : VInvCore s ∧ VBalInv s) (hex : execVOp s op = some s') :
    VInvCore s' ∧ VBalInv s' := by
  obtain ⟨⟨hok, hcommit, htv⟩, hbal⟩ := hinv
  unfold VBalInv at hbal
  cases op with
  | createVesting t b amt st dur cl rev =>
    obtain ⟨ht, -, hamt, hdur, hcl, -, hfund, hs'⟩ := execCreateVesting_some hex
    subst hs'
    have hnew : schOutstanding ⟨amt, 0, st, dur, cl, rev, false⟩ = amt := by
      unfold schOutstanding
      simp
    have happ := listCommitted_append (s.schedules b) ⟨amt, 0, st, dur, cl, rev, false⟩
    have hupd := finSum_listCommitted_update s.schedules b
      (s.schedules b ++ [⟨amt, 0, st, dur, cl, rev, false⟩])
    have htvb := htv b
    refine ⟨⟨?_, ?_, ?_⟩, ?_⟩
    · intro a sch hsch
      dsimp only at hsch
      show schedOK t sch
      by_cases hab : a = b
      · subst hab
        rw [Function.update_same] at hsch
        rcases List.mem_append.mp hsch with hmem | hmem
        · exact schedOK_mono ht sch (hok a sch hmem)
        · rcases List.mem_singleton.mp hmem with rfl
          exact ⟨Nat.pos_of_ne_zero hdur, hcl, fun _ => Nat.zero_le _⟩
      · rw [Function.update_noteq hab] at hsch
        exact schedOK_mono ht sch (hok a sch hsch)
    · show finSum (fun a => listCommitted (Function.update s.schedules b
        (s.schedules b ++ [⟨amt, 0, st, dur, cl, rev, false⟩]) a)) ≤
        s.totalCommitted + amt
      unfold commitSum at hcommit
      omega
    · intro a
      by_cases hab : a = b
      · subst hab
        show listCommitted (Function.update s.schedules a
          (s.schedules a ++ [⟨amt, 0, st, dur, cl, rev, false⟩]) a) ≤
          Function.update s.totalVestedAmount a (s.totalVestedAmount a + amt) a
        rw [Function.update_same, Function.update_same, happ, hnew]
        omega
      · show listCommitted (Function.update s.schedules b
          (s.schedules b ++ [⟨amt, 0, st, dur, cl, rev, false⟩]) a) ≤
          Function.update s.totalVestedAmount b (s.totalVestedAmount b + amt) a
        rw [Function.update_noteq hab, Function.update_noteq hab]
        exact htv a
    · show s.totalCommitted + amt ≤ s.balance
      omega
  | release t b =>
    obtain ⟨ht, -, hR, hRbal, hs'⟩ := execRelease_some hex
    subst hs'
    have hokt : ∀ sch ∈ s.schedules b, schedOK t sch :=
      fun sch hsch => schedOK_mono ht sch (hok b sch hsch)
    have hlcb : listCommitted (s.schedules b) ≤ s.totalCommitted :=
      le_trans (by
        unfold commitSum
        exact le_finSum (fun a => listCommitted (s.schedules a)) b) hcommit
    have htvb := htv b
    obtain ⟨hl1, hl2, hl3, hl4, hl5⟩ := releaseLoop_spec t (s.schedules b)
      s.totalCommitted (s.totalVestedAmount b) hokt hlcb htvb
    have hupd := finSum_listCommitted_update s.schedules b
      (releaseLoop t (s.schedules b) s.totalCommitted (s.totalVestedAmount b)).1
    refine ⟨⟨?_, ?_, ?_⟩, ?_⟩
    · intro a sch hsch
      dsimp only at hsch
      show schedOK t sch
      by_cases hab : a = b
      · subst hab
        rw [Function.update_same] at hsch
        exact hl5 sch hsch
      · rw [Function.update_noteq hab] at hsch
        exact schedOK_mono ht sch (hok a sch hsch)
    · show finSum (fun a => listCommitted (Function.update s.schedules b
        (releaseLoop t (s.schedules b) s.totalCommitted
          (s.totalVestedAmount b)).1 a)) ≤
        (releaseLoop t (s.schedules b) s.totalCommitted (s.totalVestedAmount b)).2.1
      unfold commitSum at hcommit
      omega
    · intro a
      by_cases hab : a = b
      · subst hab
        show listCommitted (Function.update s.schedules a
          (releaseLoop t (s.schedules a) s.totalCommitted
            (s.totalVestedAmount a)).1 a) ≤
          Function.update s.totalVestedAmount a
            (releaseLoop t (s.schedules a) s.totalCommitted
              (s.totalVestedAmount a)).2.2.1 a
        rw [Function.update_same, Function.update_same]
        omega
      · show listCommitted (Function.update s.schedules b
          (releaseLoop t (s.schedules b) s.totalCommitted
            (s.totalVestedAmount b)).1 a) ≤
          Function.update s.totalVestedAmount b
            (releaseLoop t (s.schedules b) s.totalCommitted
              (s.totalVestedAmount b)).2.2.1 a
        rw [Function.update_noteq hab, Function.update_noteq hab]
        exact htv a
    · show (releaseLoop t (s.schedules b) s.totalCommitted
        (s.totalVestedAmount b)).2.1 ≤ s.balance -
        (releaseLoop t (s.schedules b) s.totalCommitted
          (s.totalVestedAmount b)).2.2.2
      omega
  | releaseSchedule t b i =>
    obtain ⟨ht, -, hi, hnrev, hlt, hble, hs'⟩ := execReleaseSchedule_some hex
    subst hs'
    have hmem : (s.schedules b).getD i default ∈ s.schedules b :=
      getD_mem_of_lt _ i hi
    have hokt : schedOK t ((s.schedules b).getD i default) :=
      schedOK_mono ht _ (hok b _ hmem)
    have hvle : vestedAmount ((s.schedules b).getD i default) t ≤
        ((s.schedules b).getD i default).totalAmount :=
      vestedAmount_le _ t hokt.1
    have hout : schOutstanding ((s.schedules b).getD i default) =
        ((s.schedules b).getD i default).totalAmount -
          ((s.schedules b).getD i default).released := by
      unfold schOutstanding
      rw [if_neg (by rw [hnrev]; exact Bool.noConfusion)]
    have houtle := schOutstanding_le_listCommitted (s.schedules b) i hi
    have hlcb : listCommitted (s.schedules b) ≤ s.totalCommitted :=
      le_trans (by
        unfold commitSum
        exact le_finSum (fun a => listCommitted (s.schedules a)) b) hcommit
    have htvb := htv b
    have hveq : vestedAmount { ((s.schedules b).getD i default) with released := ((s.schedules b).getD i default).released + (vestedAmount ((s.schedules b).getD i default) t - ((s.schedules b).getD i default).released) } t =
        vestedAmount ((s.schedules b).getD i default) t := rfl
    have houtnew : schOutstanding { ((s.schedules b).getD i default) with released := ((s.schedules b).getD i default).released + (vestedAmount ((s.schedules b).getD i default) t - ((s.schedules b).getD i default).released) } =
        ((s.schedules b).getD i default).totalAmount -
          vestedAmount ((s.schedules b).getD i default) t := by
      unfold schOutstanding
      dsimp only
      rw [if_neg (by rw [hnrev]; exact Bool.noConfusion)]
      omega
    have hset := listCommitted_set (s.schedules b) i { ((s.schedules b).getD i default) with released := ((s.schedules b).getD i default).released + (vestedAmount ((s.schedules b).getD i default) t - ((s.schedules b).getD i default).released) } hi
    have hupd := finSum_listCommitted_update s.schedules b ((s.schedules b).set i { ((s.schedules b).getD i default) with released := ((s.schedules b).getD i default).released + (vestedAmount ((s.schedules b).getD i default) t - ((s.schedules b).getD i default).released) })
    have hrle : (vestedAmount ((s.schedules b).getD i default) t - ((s.schedules b).getD i default).released) ≤ s.totalCommitted := by
      omega
    have hrtv : (vestedAmount ((s.schedules b).getD i default) t - ((s.schedules b).getD i default).released) ≤ s.totalVestedAmount b := by
      omega
    refine ⟨⟨?_, ?_, ?_⟩, ?_⟩
    · intro a sch hsch
      dsimp only at hsch
      show schedOK t sch
      by_cases hab : a = b
      · subst hab
        rw [Function.update_same] at hsch
        rcases List.mem_or_eq_of_mem_set hsch with hmem' | rfl
        · exact schedOK_mono ht sch (hok a sch hmem')
        · refine ⟨hokt.1, hokt.2.1, fun _ => ?_⟩
          rw [hveq]
          show ((s.schedules a).getD i default).released +
            (vestedAmount ((s.schedules a).getD i default) t -
              ((s.schedules a).getD i default).released) ≤
            vestedAmount ((s.schedules a).getD i default) t
          omega
      · rw [Function.update_noteq hab] at hsch
        exact schedOK_mono ht sch (hok a sch hsch)
    · show finSum (fun a => listCommitted (Function.update s.schedules b
        ((s.schedules b).set i { ((s.schedules b).getD i default) with released := ((s.schedules b).getD i default).released + (vestedAmount ((s.schedules b).getD i default) t - ((s.schedules b).getD i default).released) }) a)) ≤
        (if (vestedAmount ((s.schedules b).getD i default) t - ((s.schedules b).getD i default).released) ≤ s.totalCommitted then s.totalCommitted - (vestedAmount ((s.schedules b).getD i default) t - ((s.schedules b).getD i default).released) else 0)
      rw [if_pos hrle]
      unfold commitSum at hcommit
      omega
    · intro a
      by_cases hab : a = b
      · rw [hab]
        show listCommitted (Function.update s.schedules b ((s.schedules b).set i { ((s.schedules b).getD i default) with released := ((s.schedules b).getD i default).released + (vestedAmount ((s.schedules b).getD i default) t - ((s.schedules b).getD i default).released) }) b) ≤
          Function.update s.totalVestedAmount b
            (if (vestedAmount ((s.schedules b).getD i default) t - ((s.schedules b).getD i default).released) ≤ s.totalVestedAmount b
             then s.totalVestedAmount b - (vestedAmount ((s.schedules b).getD i default) t - ((s.schedules b).getD i default).released) else 0) b
        rw [Function.update_same, Function.update_same, if_pos hrtv]
        omega
      · show listCommitted (Function.update s.schedules b ((s.schedules b).set i { ((s.schedules b).getD i default) with released := ((s.schedules b).getD i default).released + (vestedAmount ((s.schedules b).getD i default) t - ((s.schedules b).getD i default).released) }) a) ≤
          Function.update s.totalVestedAmount b
            (if (vestedAmount ((s.schedules b).getD i default) t - ((s.schedules b).getD i default).released) ≤ s.totalVestedAmount b
             then s.totalVestedAmount b - (vestedAmount ((s.schedules b).getD i default) t - ((s.schedules b).getD i default).released) else 0) a
        rw [Function.update_noteq hab, Function.update_noteq hab]
        exact htv a
    · show (if (vestedAmount ((s.schedules b).getD i default) t - ((s.schedules b).getD i default).released) ≤ s.totalCommitted then s.totalCommitted - (vestedAmount ((s.schedules b).getD i default) t - ((s.schedules b).getD i default).released) else 0) ≤
        s.balance - (vestedAmount ((s.schedules b).getD i default) t - ((s.schedules b).getD i default).released)
      rw [if_pos hrle]
      omega
  | revokeVesting t b i =>
    obtain ⟨ht, hi, -, hnrev, -, hs'⟩ := execRevokeVesting_some hex
    subst hs'
    have hmem : (s.schedules b).getD i default ∈ s.schedules b :=
      getD_mem_of_lt _ i hi
    have hokt : schedOK t ((s.schedules b).getD i default) :=
      schedOK_mono ht _ (hok b _ hmem)
    have hvle : vestedAmount ((s.schedules b).getD i default) t ≤
        ((s.schedules b).getD i default).totalAmount :=
      vestedAmount_le _ t hokt.1
    have hrel : ((s.schedules b).getD i default).released ≤
        vestedAmount ((s.schedules b).getD i default) t := hokt.2.2 hnrev
    have hout : schOutstanding ((s.schedules b).getD i default) =
        ((s.schedules b).getD i default).totalAmount -
          ((s.schedules b).getD i default).released := by
      unfold schOutstanding
      rw [if_neg (by rw [hnrev]; exact Bool.noConfusion)]
    have houtle := schOutstanding_le_listCommitted (s.schedules b) i hi
    have hlcb : listCommitted (s.schedules b) ≤ s.totalCommitted :=
      le_trans (by
        unfold commitSum
        exact le_finSum (fun a => listCommitted (s.schedules a)) b) hcommit
    have htvb := htv b
    have houtnew : schOutstanding { ((s.schedules b).getD i default) with revoked := true } = 0 := by
      unfold schOutstanding
      rw [if_pos rfl]
    have hset := listCommitted_set (s.schedules b) i { ((s.schedules b).getD i default) with revoked := true } hi
    have hupd := finSum_listCommitted_update s.schedules b ((s.schedules b).set i { ((s.schedules b).getD i default) with revoked := true })
    have hunvle : (((s.schedules b).getD i default).totalAmount - vestedAmount ((s.schedules b).getD i default) t) ≤ s.totalCommitted := by
      omega
    have hunvtv : (((s.schedules b).getD i default).totalAmount - vestedAmount ((s.schedules b).getD i default) t) ≤ s.totalVestedAmount b := by
      omega
    refine ⟨⟨?_, ?_, ?_⟩, ?_⟩
    · intro a sch hsch
      dsimp only at hsch
      show schedOK t sch
      by_cases hab : a = b
      · subst hab
        rw [Function.update_same] at hsch
        rcases List.mem_or_eq_of_mem_set hsch with hmem' | rfl
        · exact schedOK_mono ht sch (hok a sch hmem')
        · exact ⟨hokt.1, hokt.2.1, fun hc => Bool.noConfusion hc⟩
      · rw [Function.update_noteq hab] at hsch
        exact schedOK_mono ht sch (hok a sch hsch)
    · show finSum (fun a => listCommitted (Function.update s.schedules b
        ((s.schedules b).set i { ((s.schedules b).getD i default) with revoked := true }) a)) ≤
        (if (((s.schedules b).getD i default).totalAmount - vestedAmount ((s.schedules b).getD i default) t) ≤ s.totalCommitted then s.totalCommitted - (((s.schedules b).getD i default).totalAmount - vestedAmount ((s.schedules b).getD i default) t) else 0)
      rw [if_pos hunvle]
      unfold commitSum at hcommit
      omega
    · intro a
      by_cases hab : a = b
      · rw [hab]
        show listCommitted (Function.update s.schedules b ((s.schedules b).set i { ((s.schedules b).getD i default) with revoked := true }) b) ≤
          Function.update s.totalVestedAmount b
            (if (((s.schedules b).getD i default).totalAmount - vestedAmount ((s.schedules b).getD i default) t) ≤ s.totalVestedAmount b
             then s.totalVestedAmount b - (((s.schedules b).getD i default).totalAmount - vestedAmount ((s.schedules b).getD i default) t) else 0) b
        rw [Function.update_same, Function.update_same, if_pos hunvtv]
        omega
      · show listCommitted (Function.update s.schedules b ((s.schedules b).set i { ((s.schedules b).getD i default) with revoked := true }) a) ≤
          Function.update s.totalVestedAmount b
            (if (((s.schedules b).getD i default).totalAmount - vestedAmount ((s.schedules b).getD i default) t) ≤ s.totalVestedAmount b
             then s.totalVestedAmount b - (((s.schedules b).getD i default).totalAmount - vestedAmount ((s.schedules b).getD i default) t) else 0) a
        rw [Function.update_noteq hab, Function.update_noteq hab]
        exact htv a
    · show (if (((s.schedules b).getD i default).totalAmount - vestedAmount ((s.schedules b).getD i default) t) ≤ s.totalCommitted then s.totalCommitted - (((s.schedules b).getD i default).totalAmount - vestedAmount ((s.schedules b).getD i default) t) else 0) ≤
        s.balance - (((s.schedules b).getD i default).totalAmount - vestedAmount ((s.schedules b).getD i default) t)
      rw [if_pos hunvle]
      omega
  | emergencyWithdraw amt =>
    exact absurd hq (by simp [VOp.isEmergencyWithdraw])
  | pause =>
    have hs' : s' = { s with paused := true } := by
      have hex' : (if s.paused then none
          else some { s with paused := true }) = some s' := hex
      split at hex'
      · exact Option.noConfusion hex'
      · exact ((Option.some.injEq _ _).mp hex').symm
    subst hs'
    exact ⟨⟨hok, hcommit, htv⟩, hbal⟩
  | unpause =>
    have hs' : s' = { s with paused := false } := by
      have hex' : (if s.paused then some { s with paused := false }
          else none) = some s' := hex
      split at hex'
      · exact ((Option.some.injEq _ _).mp hex').symm
      · exact Option.noConfusion hex'
    subst hs'
    exact ⟨⟨hok, hcommit, htv⟩, hbal⟩
  | fund amt =>
    have hs' := execFund_some hex
    subst hs'
    refine ⟨⟨hok, hcommit, htv⟩, ?_⟩
    show s.totalCommitted ≤ s.balance + amt
    omega

theorem vinv_reachable_safe [Fintype A] (s : VState A) (h : VReachableSafe s) :
    VInvCore s ∧ VBalInv s := by
  obtain ⟨ops, hops, hs⟩ := h
  subst hs
  exact runVOps_preserve_mem (fun s s' op hq => vinv_step s s' op hq) ops _
    hops (vinv_init A)

theorem getD_set_self {α : Type} [Inhabited α] (l : List α) (i : Nat) (x : α)
    (h : i < l.length) : (l.set i x).getD i default = x := by
  rw [getD_eq_getElem _ _ _ (by rw [List.length_set]; exact h)]
  exact List.getElem_set_self _

/-- C9 (amended): on every history that never uses the owner escape hatch
`emergencyWithdraw` (the only operation that can remove committed tokens),
`revokeVesting` on a revocable, not-yet-revoked schedule succeeds, computes
`unvested = totalAmount - vestedAmount(now)`, marks the schedule revoked,
decrements `totalCommitted`, the beneficiary's vested total and the held
token balance by exactly `unvested` (the transfer to the admin), and every
subsequent `releaseSchedule` on that schedule fails; on a non-revocable or
already-revoked schedule it fails.  After an `emergencyWithdraw` the token
balance can no longer cover `unvested`, making the `safeTransfer` inside
`revokeVesting` revert (see the counterexample), which is why the original
unrestricted claim fails. -/
theorem revoke_exact_effects [Fintype A] (s : VState A) (hreach : VReachableSafe s)
    (t : Nat) (b : A) (i : Nat) :
    (((s.schedules b).getD i default).revocable = false →
      execRevokeVesting s t b i = none) ∧
    (((s.schedules b).getD i default).revoked = true →
      execRevokeVesting s t b i = none) ∧
    (s.now ≤ t → i < (s.schedules b).length →
      ((s.schedules b).getD i default).revocable = true →
      ((s.schedules b).getD i default).revoked = false →
      ∃ s', execRevokeVesting s t b i = some s' ∧
        ((s'.schedules b).getD i default).revoked = true ∧
        s'.totalCommitted +
          (((s.schedules b).getD i default).totalAmount -
            vestedAmount ((s.schedules b).getD i default) t) = s.totalCommitted ∧
        s'.totalVestedAmount b +
          (((s.schedules b).getD i default).totalAmount -
            vestedAmount ((s.schedules b).getD i default) t) =
          s.totalVestedAmount b ∧
        s'.balance +
          (((s.schedules b).getD i default).totalAmount -
            vestedAmount ((s.schedules b).getD i default) t) = s.balance ∧
        (∀ t', execReleaseSchedule s' t' b i = none)) := by
  obtain ⟨⟨hok, hcommit, htv⟩, hbal⟩ := vinv_reachable_safe s hreach
  unfold VBalInv at hbal
  refine ⟨?_, ?_, ?_⟩
  · intro hnr
    unfold execRevokeVesting
    split
    · rfl
    split
    · rfl
    dsimp only
    rw [if_pos (by rw [hnr]; rfl)]
  · intro hr
    unfold execRevokeVesting
    split
    · rfl
    · split
      · rfl
      · dsimp only
        split
        · rfl
        · rfl
  · intro ht hi hrevoc hnrev
    have hmem : (s.schedules b).getD i default ∈ s.schedules b :=
      getD_mem_of_lt _ i hi
    have hokt : schedOK t ((s.schedules b).getD i default) :=
      schedOK_mono ht _ (hok b _ hmem)
    have hvle : vestedAmount ((s.schedules b).getD i default) t ≤
        ((s.schedules b).getD i default).totalAmount :=
      vestedAmount_le _ t hokt.1
    have hrel : ((s.schedules b).getD i default).released ≤
        vestedAmount ((s.schedules b).getD i default) t := hokt.2.2 hnrev
    have hout : schOutstanding ((s.schedules b).getD i default) =
        ((s.schedules b).getD i default).totalAmount -
          ((s.schedules b).getD i default).released := by
      unfold schOutstanding
      rw [if_neg (by rw [hnrev]; exact Bool.noConfusion)]
    have houtle := schOutstanding_le_listCommitted (s.schedules b) i hi
    have hlcb : listCommitted (s.schedules b) ≤ s.totalCommitted :=
      le_trans (by
        unfold commitSum
        exact le_finSum (fun a => listCommitted (s.schedules a)) b) hcommit
    have htvb := htv b
    have hunvle : ((s.schedules b).getD i default).totalAmount -
        vestedAmount ((s.schedules b).getD i default) t ≤ s.totalCommitted := by
      omega
    have hunvtv : ((s.schedules b).getD i default).totalAmount -
        vestedAmount ((s.schedules b).getD i default) t ≤
        s.totalVestedAmount b := by
      omega
    have hunvbal : ((s.schedules b).getD i default).totalAmount -
        vestedAmount ((s.schedules b).getD i default) t ≤ s.balance := by
      omega
    have hexec : execRevokeVesting s t b i = some { s with
        now := t
        schedules := Function.update s.schedules b
          ((s.schedules b).set i
            { (s.schedules b).getD i default with revoked := true })
        totalCommitted := s.totalCommitted -
          (((s.schedules b).getD i default).totalAmount -
            vestedAmount ((s.schedules b).getD i default) t)
        totalVestedAmount := Function.update s.totalVestedAmount b
          (s.totalVestedAmount b -
            (((s.schedules b).getD i default).totalAmount -
              vestedAmount ((s.schedules b).getD i default) t))
        balance := s.balance -
          (((s.schedules b).getD i default).totalAmount -
            vestedAmount ((s.schedules b).getD i default) t) } := by
      unfold execRevokeVesting
      rw [if_neg (show ¬ t < s.now by omega),
        if_neg (show ¬ (s.schedules b).length ≤ i by omega)]
      dsimp only
      rw [if_neg (by rw [hrevoc]; exact Bool.noConfusion),
        if_neg (by rw [hnrev]; exact Bool.noConfusion),
        unvested_ite_eq ((s.schedules b).getD i default).totalAmount
          (vestedAmount ((s.schedules b).getD i default) t),
        if_neg (by omega)]
      rw [if_pos hunvle, if_pos hunvtv]
    refine ⟨_, hexec, ?_, ?_, ?_, ?_, ?_⟩
    · show ((Function.update s.schedules b
        ((s.schedules b).set i
          { (s.schedules b).getD i default with revoked := true }) b).getD i
            default).revoked = true
      rw [Function.update_same, getD_set_self _ _ _ hi]
    · show s.totalCommitted -
        (((s.schedules b).getD i default).totalAmount -
          vestedAmount ((s.schedules b).getD i default) t) + _ = s.totalCommitted
      omega
    · show Function.update s.totalVestedAmount b _ b + _ = s.totalVestedAmount b
      rw [Function.update_same]
      omega
    · show s.balance - _ + _ = s.balance
      omega
    · intro t'
      unfold execReleaseSchedule
      split
      · rfl
      split
      · rfl
      split
      · rfl
      dsimp only
      rename_i hlen
      rw [if_pos (show ((Function.update s.schedules b
          ((s.schedules b).set i
            { (s.schedules b).getD i default with revoked := true }) b).getD i
              default).revoked = true by
        rw [Function.update_same, getD_set_self _ _ _ hi])]

/-- Counterexample to C9 as stated: fund 100 tokens, create a revocable
schedule over them, then `emergencyWithdraw` the whole balance.  The
schedule is revocable and not revoked, yet `revokeVesting` reverts (the
`safeTransfer` of the 100 unvested tokens cannot be paid), so it neither
marks the schedule revoked nor decrements anything — contradicting the
claim that revoke on a revocable, not-yet-revoked schedule performs those
effects and fails only with NotRevocable or AlreadyRevoked. -/
theorem revoke_fails_after_emergency_cex :
    VReachable (runVOps (vInit (Fin 1))
      [.fund 100, .createVesting 0 0 100 0 100 0 true,
        .emergencyWithdraw 100]) ∧
    (((runVOps (vInit (Fin 1))
      [.fund 100, .createVesting 0 0 100 0 100 0 true,
        .emergencyWithdraw 100]).schedules 0).getD 0 default).revocable = true ∧
    (((runVOps (vInit (Fin 1))
      [.fund 100, .createVesting 0 0 100 0 100 0 true,
        .emergencyWithdraw 100]).schedules 0).getD 0 default).revoked = false ∧
    execRevokeVesting (runVOps (vInit (Fin 1))
      [.fund 100, .createVesting 0 0 100 0 100 0 true,
        .emergencyWithdraw 100]) 0 0 0 = none :=
  ⟨⟨[.fund 100, .createVesting 0 0 100 0 100 0 true, .emergencyWithdraw 100],
    rfl⟩, by decide, by decide, by rfl⟩

/-- Witness for `revoke_exact_effects`: fund 100, create a revocable
schedule (start 0, duration 100, no cliff), revoke at time 50: the
unvested half (50) is returned, `totalCommitted` drops from 100 to 50, and
the schedule is marked revoked. -/
theorem revoke_exact_effects_witness :
    ((execRevokeVesting (runVOps (vInit (Fin 1))
        [.fund 100, .createVesting 0 0 100 0 100 0 true]) 50 0 0).getD
      (runVOps (vInit (Fin 1))
        [.fund 100, .createVesting 0 0 100 0 100 0 true])).totalCommitted + 50 =
      (runVOps (vInit (Fin 1))
        [.fund 100, .createVesting 0 0 100 0 100 0 true]).totalCommitted ∧
    ((((execRevokeVesting (runVOps (vInit (Fin 1))
        [.fund 100, .createVesting 0 0 100 0 100 0 true]) 50 0 0).getD
      (runVOps (vInit (Fin 1))
        [.fund 100, .createVesting 0 0 100 0 100 0 true])).schedules 0).getD 0
          default).revoked = true := by
  have h := (revoke_exact_effects (runVOps (vInit (Fin 1))
      [.fund 100, .createVesting 0 0 100 0 100 0 true])
      ⟨[.fund 100, .createVesting 0 0 100 0 100 0 true], by decide, rfl⟩
      50 0 0).2.2 (by decide) (by decide) (by decide) (by decide)
  obtain ⟨s', hexec, hrev, hcom, -, -, -⟩ := h
  rw [hexec]
  have hunv : (((runVOps (vInit (Fin 1))
      [.fund 100, .createVesting 0 0 100 0 100 0 true]).schedules 0).getD 0
        default).totalAmount -
      vestedAmount (((runVOps (vInit (Fin 1))
        [.fund 100, .createVesting 0 0 100 0 100 0 true]).schedules 0).getD 0
          default) 50 = 50 := by decide
  rw [hunv] at hcom
  exact ⟨hcom, hrev⟩
